import Mathlib

/-!
Verification development for the `lox-rs` repository: a tree-walking
interpreter for the Lox language (`loxrun`: scanner, parser, resolver,
evaluator, driver) plus a partially developed bytecode VM (`loxvm`).

The definitions below are a shallow embedding of the Rust sources.
Conventions used throughout:

* Rust `usize` indices and ids are `Nat`; Rust `i32`/`u32` fields
  (source lines) are `Int` or `Nat` as noted at each definition.
* Rust `f64` number payloads are modelled as `Int`.  No claim below
  depends on floating-point arithmetic or formatting; the payload only
  rides along and is compared with its own equality exactly where the
  source compares `f64` with `==`.
* `Rc<RefCell<...>>` shared mutable values (environments, instances)
  are modelled as addresses (`Nat`) into explicit heaps carried in the
  interpreter state; cloning an `Rc` is copying the address.
  `LoxClass` values are never mutated after construction in the source
  and their derived `PartialEq` is structural, so classes are embedded
  structurally.
* `HashMap<String, V>` is an association list with insert-or-replace
  semantics.  Map equality is modelled pointwise over the list; no
  claim depends on comparing maps that differ only in insertion order.
* Functions that Rust writes as loops or recursion of unbounded depth
  take an explicit fuel argument; with enough fuel the embedding agrees
  with the source, and all theorems below either supply enough fuel or
  are conditional on the result of a run.
* A Rust `panic!`/`unwrap` on `None` is modelled by a distinguished
  result (noted at each spot); no claim exercises those paths.
-/

namespace LoxRs

/-! ## Tokens (`loxrun/src/tokens.rs`) -/

inductive TokenType
| LeftParen | RightParen | LeftBrace | RightBrace
| Comma | Dot | Minus | Plus | Semicolon | Slash | Star
| Bang | BangEqual | Equal | EqualEqual
| Greater | GreaterEqual | Less | LessEqual
| Identifier | String | Number
| And | Class | Else | False | Fun | For | If | Nil | Or
| Print | Return | Super | This | True | Var | While
| Eof
deriving DecidableEq, Repr

/-- `LiteralTypes`; the `f64` payload of `Number` is modelled as `Int`. -/
inductive LiteralTypes
| String (s : String)
| Number (n : Int)
| Bool (b : Bool)
| Nil
deriving DecidableEq, Repr

structure Token where
  token_type : TokenType
  lexeme : String
  literal : LiteralTypes
  line : Int
deriving DecidableEq, Repr

/-! ## AST (`loxrun/src/expression.rs`, `loxrun/src/stmt.rs`)

The statement type follows the revision used by the interpreter and
resolver (`interpreter.rs` matches on a `Class` variant carrying an
optional superclass `Variable`); the in-tree `stmt.rs` is an older
revision without `Class`.  The parser revision in `parser.rs` builds
`ClassStmt` without a superclass field; its embedding below sets the
`superclass` component to `none`. -/

structure Variable where
  id : Nat
  name : Token
deriving DecidableEq, Repr

inductive Expression
| Assign (id : Nat) (name : Token) (value : Expression)
| Binary (id : Nat) (left : Expression) (operator : Token) (right : Expression)
| Call (id : Nat) (callee : Expression) (paren : Token) (arguments : List Expression)
| Get (id : Nat) (object : Expression) (name : Token)
| Grouping (id : Nat) (expression : Expression)
| Literal (id : Nat) (value : LiteralTypes)
| Logical (id : Nat) (left : Expression) (operator : Token) (right : Expression)
| Set (id : Nat) (object : Expression) (name : Token) (value : Expression)
| Super (id : Nat) (keyword : Token) (method : Token)
| This (id : Nat) (keyword : Token)
| Unary (id : Nat) (operator : Token) (right : Expression)
| Variable (v : Variable)

mutual
inductive Stmt
| Block (statements : List Stmt)
| Expression (expression : Expression)
| Function (f : FunctionStmt)
| If (condition : Expression) (then_branch : Stmt) (else_branch : Option Stmt)
| Print (expression : Expression)
| Return (keyword : Token) (value : Option Expression)
| Var (name : Token) (initializer : Option Expression)
| While (condition : Expression) (body : Stmt)
| Class (name : Token) (superclass : Option Variable) (methods : List FunctionStmt)
inductive FunctionStmt
| mk (name : Token) (params : List Token) (body : List Stmt)
end

def FunctionStmt.name : FunctionStmt → Token
| .mk n _ _ => n

def FunctionStmt.params : FunctionStmt → List Token
| .mk _ p _ => p

def FunctionStmt.body : FunctionStmt → List Stmt
| .mk _ _ b => b

/-! Structural equality on the AST, mirroring the derived `PartialEq`
implementations on `Expression` and `Stmt`. -/

mutual
def beqExpression : Expression → Expression → Bool
| .Assign i1 n1 v1, .Assign i2 n2 v2 => i1 == i2 && n1 == n2 && beqExpression v1 v2
| .Binary i1 l1 o1 r1, .Binary i2 l2 o2 r2 =>
    i1 == i2 && beqExpression l1 l2 && o1 == o2 && beqExpression r1 r2
| .Call i1 c1 p1 a1, .Call i2 c2 p2 a2 =>
    i1 == i2 && beqExpression c1 c2 && p1 == p2 && beqExpressionList a1 a2
| .Get i1 o1 n1, .Get i2 o2 n2 => i1 == i2 && beqExpression o1 o2 && n1 == n2
| .Grouping i1 e1, .Grouping i2 e2 => i1 == i2 && beqExpression e1 e2
| .Literal i1 v1, .Literal i2 v2 => i1 == i2 && v1 == v2
| .Logical i1 l1 o1 r1, .Logical i2 l2 o2 r2 =>
    i1 == i2 && beqExpression l1 l2 && o1 == o2 && beqExpression r1 r2
| .Set i1 o1 n1 v1, .Set i2 o2 n2 v2 =>
    i1 == i2 && beqExpression o1 o2 && n1 == n2 && beqExpression v1 v2
| .Super i1 k1 m1, .Super i2 k2 m2 => i1 == i2 && k1 == k2 && m1 == m2
| .This i1 k1, .This i2 k2 => i1 == i2 && k1 == k2
| .Unary i1 o1 r1, .Unary i2 o2 r2 => i1 == i2 && o1 == o2 && beqExpression r1 r2
| .Variable v1, .Variable v2 => v1 == v2
| _, _ => false
def beqExpressionList : List Expression → List Expression → Bool
| [], [] => true
| x :: xs, y :: ys => beqExpression x y && beqExpressionList xs ys
| _, _ => false
end

mutual
def beqStmt : Stmt → Stmt → Bool
| .Block s1, .Block s2 => beqStmtList s1 s2
| .Expression e1, .Expression e2 => beqExpression e1 e2
| .Function f1, .Function f2 => beqFunctionStmt f1 f2
| .If c1 t1 e1, .If c2 t2 e2 =>
    beqExpression c1 c2 && beqStmt t1 t2 &&
      (match e1, e2 with
       | some a, some b => beqStmt a b
       | none, none => true
       | _, _ => false)
| .Print e1, .Print e2 => beqExpression e1 e2
| .Return k1 v1, .Return k2 v2 =>
    k1 == k2 &&
      (match v1, v2 with
       | some a, some b => beqExpression a b
       | none, none => true
       | _, _ => false)
| .Var n1 i1, .Var n2 i2 =>
    n1 == n2 &&
      (match i1, i2 with
       | some a, some b => beqExpression a b
       | none, none => true
       | _, _ => false)
| .While c1 b1, .While c2 b2 => beqExpression c1 c2 && beqStmt b1 b2
| .Class n1 s1 m1, .Class n2 s2 m2 =>
    n1 == n2 &&
      (match s1, s2 with
       | some a, some b => a == b
       | none, none => true
       | _, _ => false) && beqFunctionStmtList m1 m2
| _, _ => false
def beqStmtList : List Stmt → List Stmt → Bool
| [], [] => true
| x :: xs, y :: ys => beqStmt x y && beqStmtList xs ys
| _, _ => false
def beqFunctionStmt : FunctionStmt → FunctionStmt → Bool
| .mk n1 p1 b1, .mk n2 p2 b2 => n1 == n2 && p1 == p2 && beqStmtList b1 b2
def beqFunctionStmtList : List FunctionStmt → List FunctionStmt → Bool
| [], [] => true
| x :: xs, y :: ys => beqFunctionStmt x y && beqFunctionStmtList xs ys
| _, _ => false
end

/-! ## Association lists standing in for `HashMap<String, V>` -/

/-- `HashMap::get`. -/
def AListGet {α : Type} : List (String × α) → String → Option α
| [], _ => none
| (k, v) :: rest, key => if k == key then some v else AListGet rest key

/-- `HashMap::contains_key`. -/
def AListContains {α : Type} (m : List (String × α)) (key : String) : Bool :=
  (AListGet m key).isSome

/-- `HashMap::insert`: replace the binding if the key is present, else append. -/
def AListInsert {α : Type} : List (String × α) → String → α → List (String × α)
| [], key, v => [(key, v)]
| (k, w) :: rest, key, v =>
    if k == key then (k, v) :: rest else (k, w) :: AListInsert rest key v

/-! ## Runtime values (`loxrun/src/interpreter.rs`, `callable.rs`, `class.rs`) -/

/-- `LoxFunction`: a declaration, a closure environment (modelled by its
address into the environment heap) and the initializer flag. -/
structure LoxFunction where
  declaration : FunctionStmt
  closure : Nat
  isInitializer : Bool

/-- `LoxClass`. The source holds the superclass as
`Option<Rc<RefCell<LoxClass>>>`; classes are never mutated after
construction and compare structurally (derived `PartialEq`, with `Rc` and
`RefCell` comparing their contents), so the embedding is structural. -/
inductive LoxClass
| mk (name : String) (superclass : Option LoxClass) (methods : List (String × LoxFunction))

def LoxClass.name : LoxClass → String
| .mk n _ _ => n

def LoxClass.superclass : LoxClass → Option LoxClass
| .mk _ s _ => s

def LoxClass.methods : LoxClass → List (String × LoxFunction)
| .mk _ _ m => m

/-- `Callable`. `DynamicFunction` holds an `Rc` to a boxed `dyn LoxCallable`,
modelled by a pointer; the only dynamic callable the program ever registers
is the `clock` builtin (pointer 0). -/
inductive Callable
| DynamicFunction (ptr : Nat)
| Function (f : LoxFunction)
| Class (c : LoxClass)

/-- `Value`. `Instance` holds an `Rc<RefCell<Instance>>`, modelled as an
address into the instance heap. -/
inductive Value
| Callable (c : Callable)
| Instance (addr : Nat)
| Number (n : Int)
| String (s : String)
| Bool (b : Bool)
| Nil

/-- `Value::is_nil`. -/
def valueIsNil : Value → Bool
| .Nil => true
| _ => false

/-- `Value::is_true`: `false` and `nil` are falsey, everything else truthy. -/
def valueIsTrue : Value → Bool
| .Bool b => b
| .Nil => false
| _ => true

abbrev Value.is_nil := valueIsNil

abbrev Value.is_true := valueIsTrue

/-- `Instance` (`class.rs`): the shared class and the field map.  The Rust
field `class` is a Lean keyword; it is named `klass` here. -/
structure Instance where
  klass : LoxClass
  fields : List (String × Value)

/-- `impl PartialEq for LoxFunction`: declaration compared structurally,
closure compared by `Rc::ptr_eq` (here: address equality).  The
`is_initializer` flag does not participate, exactly as in the source. -/
def loxFunctionEq (f g : LoxFunction) : Bool :=
  beqFunctionStmt f.declaration g.declaration && f.closure == g.closure

def methodsEq : List (String × LoxFunction) → List (String × LoxFunction) → Bool
| [], [] => true
| (k1, v1) :: t1, (k2, v2) :: t2 => k1 == k2 && loxFunctionEq v1 v2 && methodsEq t1 t2
| _, _ => false

/-- Derived `PartialEq for LoxClass`: name, superclass (through the `Rc`,
hence structural) and methods map. -/
def loxClassEq : LoxClass → LoxClass → Bool
| .mk n1 s1 m1, .mk n2 s2 m2 =>
    n1 == n2 &&
      (match s1, s2 with
       | some a, some b => loxClassEq a b
       | none, none => true
       | _, _ => false) && methodsEq m1 m2

/-- Derived `PartialEq for Callable`: `DynamicFunction` by `Rc::ptr_eq`,
`Function` by `loxFunctionEq`, `Class` by `loxClassEq`; distinct variants
are unequal. -/
def callableEq : Callable → Callable → Bool
| .DynamicFunction a, .DynamicFunction b => a == b
| .Function f, .Function g => loxFunctionEq f g
| .Class c, .Class d => loxClassEq c d
| _, _ => false

/-! ## Environments (`interpreter.rs`, `Environment`)

An `Environment` is `{ enclosing: Option<Rc<RefCell<Environment>>>,
values: HashMap<String, Value> }`; the heap is a list of records indexed
by address.  Addresses handed out by the interpreter are always in
bounds; reading an out-of-bounds address yields an empty root record. -/

structure EnvRec where
  enclosing : Option Nat
  values : List (String × Value)

abbrev Heap := List EnvRec

def heapGetRec (h : Heap) (a : Nat) : EnvRec :=
  h.getD a { enclosing := none, values := [] }

def heapSet (h : Heap) (a : Nat) (e : EnvRec) : Heap :=
  h.set a e

/-- `Environment::define`: unconditional insert into the scope at `a`. -/
def envDefine (h : Heap) (a : Nat) (name : String) (v : Value) : Heap :=
  heapSet h a { heapGetRec h a with values := AListInsert (heapGetRec h a).values name v }

structure InterpreterError where
  message : String
deriving DecidableEq, Repr

def undefinedVariableMsg (name : Token) : String :=
  "Undefined variable '" ++ name.lexeme ++ "'.\n[line " ++ toString name.line ++ "]"

/-- `Environment::get`: search the scope at `a`, then the enclosing chain.
The chain recursion is bounded by `fuel`; reachable chains are acyclic and
no longer than the heap, so callers pass `h.length + 1`. -/
def envGet (h : Heap) : Nat → Nat → String → Option Value
| 0, _, _ => none
| fuel + 1, a, name =>
    match AListGet (heapGetRec h a).values name with
    | some v => some v
    | none =>
        match (heapGetRec h a).enclosing with
        | some p => envGet h fuel p name
        | none => none

/-- `Environment::assign`: update the first scope on the chain that contains
`name`, else report the undefined-variable error.  Returns the updated heap
(the source returns `Ok(InterpreterResult::None)` and mutates in place). -/
def envAssign (h : Heap) : Nat → Nat → Token → Value → Except InterpreterError Heap
| 0, _, name, _ => .error { message := undefinedVariableMsg name }
| fuel + 1, a, name, v =>
    if AListContains (heapGetRec h a).values name.lexeme then
      .ok (envDefine h a name.lexeme v)
    else
      match (heapGetRec h a).enclosing with
      | some p => envAssign h fuel p name v
      | none => .error { message := undefinedVariableMsg name }

/-- The loop of `Environment::assign_at` after the first link has been
taken: the source walks `depth - 1` further links, returning the
undefined-variable error when the chain runs out, and finally delegates to
the chained `assign`. -/
def envAssignAtLoop (h : Heap) (fuel : Nat) (name : Token) (v : Value) :
    Nat → Option Nat → Except InterpreterError Heap
| 0, none => .error { message := undefinedVariableMsg name }
| 0, some b => envAssign h fuel b name v
| _ + 1, none => .error { message := undefinedVariableMsg name }
| k + 1, some b => envAssignAtLoop h fuel name v k (heapGetRec h b).enclosing

/-- `Environment::assign_at`: depth 0 delegates to `assign` on the current
scope; otherwise walk exactly `depth` enclosing links and run `assign`
(which itself searches onward through the chain) from the scope reached. -/
def envAssignAt (h : Heap) (fuel : Nat) (a : Nat) (name : Token) (v : Value)
    (depth : Nat) : Except InterpreterError Heap :=
  if depth == 0 then envAssign h fuel a name v
  else envAssignAtLoop h fuel name v (depth - 1) (heapGetRec h a).enclosing

/-- The loop of `Environment::get_at` after the first link.  The source
returns `None` when the chain runs out inside the loop, but `unwrap`s the
final link: reaching `none` at the end is a Rust panic, modelled as
`.error ()`. -/
def envGetAtLoop (h : Heap) (fuel : Nat) (name : String) :
    Nat → Option Nat → Except Unit (Option Value)
| 0, none => .error ()
| 0, some b => .ok (envGet h fuel b name)
| _ + 1, none => .ok none
| k + 1, some b => envGetAtLoop h fuel name k (heapGetRec h b).enclosing

/-- `Environment::get_at`: depth 0 delegates to the chained `get`; otherwise
walk exactly `depth` links and run `get` from the scope reached.
`.error ()` marks the `unwrap` panic on a chain of exactly `depth - 1`
ancestors. -/
def envGetAt (h : Heap) (fuel : Nat) (a : Nat) (name : String) (depth : Nat) :
    Except Unit (Option Value) :=
  if depth == 0 then .ok (envGet h fuel a name)
  else envGetAtLoop h fuel name (depth - 1) (heapGetRec h a).enclosing

/-- Ancestor walk: the scope reached from `a` after exactly `d` enclosing
links, when every link on the way exists. -/
def ancestorAt (h : Heap) : Nat → Nat → Option Nat
| a, 0 => some a
| a, d + 1 =>
    match (heapGetRec h a).enclosing with
    | some p => ancestorAt h p d
    | none => none

/-! ## Chunk (`loxvm/src/chunk.rs`) -/

inductive OpCode
| Constant | Add | Subtract | Multiply | Divide | Negate | Return
deriving DecidableEq, Repr

/-- `OpCode as u8` (`#[repr(u8)]` discriminants 0..6). -/
def OpCode.toByte : OpCode → Nat
| .Constant => 0
| .Add => 1
| .Subtract => 2
| .Multiply => 3
| .Divide => 4
| .Negate => 5
| .Return => 6

/-- `Chunk`: code bytes, constants pool and the parallel line array.
Bytes are `u8` (`Nat` here), lines are `u32` (`Nat` here). -/
structure Chunk where
  code : List Nat
  constants : List Int
  lines : List Nat
deriving DecidableEq, Repr

def Chunk.new : Chunk :=
  { code := [], constants := [], lines := [] }

/-- `Chunk::write_op_code`. -/
def Chunk.write_op_code (c : Chunk) (op : OpCode) (line : Nat) : Chunk :=
  { c with code := c.code ++ [op.toByte], lines := c.lines ++ [line] }

/-- `Chunk::write`: one operand byte. -/
def Chunk.write (c : Chunk) (byte : Nat) (line : Nat) : Chunk :=
  { c with code := c.code ++ [byte], lines := c.lines ++ [line] }

/-- `Chunk::add_constant` (returns the new constant's index in the source;
only the chunk is needed here). -/
def Chunk.add_constant (c : Chunk) (value : Int) : Chunk :=
  { c with constants := c.constants ++ [value] }

/-- One write operation against a chunk: `write_op_code` or `write`. -/
inductive WriteOp
| opCode (op : OpCode) (line : Nat)
| byte (b : Nat) (line : Nat)
deriving DecidableEq, Repr

def WriteOp.lineOf : WriteOp → Nat
| .opCode _ l => l
| .byte _ l => l

def WriteOp.byteOf : WriteOp → Nat
| .opCode op _ => op.toByte
| .byte b _ => b

/-- Apply a sequence of write operations to a chunk. -/
def applyWrites : Chunk → List WriteOp → Chunk
| c, [] => c
| c, .opCode op l :: rest => applyWrites (c.write_op_code op l) rest
| c, .byte b l :: rest => applyWrites (c.write b l) rest

/-! ## Substring check (used to state what a diagnostic does not contain) -/

def isPrefixOfL : List Char → List Char → Bool
| [], _ => true
| _ :: _, [] => false
| a :: as, b :: bs => a == b && isPrefixOfL as bs

def containsL : List Char → List Char → Bool
| [], needle => needle.isEmpty
| h :: t, needle => isPrefixOfL needle (h :: t) || containsL t needle

def strContains (hay needle : String) : Bool :=
  containsL hay.data needle.data

/-! ## Scanner (`loxrun/src/scanner.rs`)

State fields follow the Rust struct; `start`/`current` are the `i32`
position counters (always non-negative, hence `Nat`), `line` is the `i32`
line counter.  The scanner's `report` prints with `println!`, i.e. to
standard output, collected in `stdout`.

The source uses the one counter `current` in two inconsistent roles: as a
character index in `advance`/`peek`/`match_next` (`source.chars().nth(i)`),
and as a byte offset in `is_at_end` (`self.source.len() as i32`, the UTF-8
byte length) and in token slicing (`&self.source[start..current]`).  The two
roles agree exactly when every character of the source is a single UTF-8
byte (ASCII); on any multi-byte character they diverge and the program
panics (`chars().nth(i).unwrap()` past the character count, or a byte slice
off a character boundary) while scanning the following token.  This
embedding identifies the two roles — it indexes by characters throughout —
so it is faithful precisely on single-byte sources, and every scanner
theorem below quantifies over single-byte (ASCII) inputs only. -/

structure ScannerState where
  source : List Char
  had_error : Bool
  tokens : List Token
  start : Nat
  current : Nat
  line : Int
  stdout : List String

/-- `Scanner::new`. -/
def scannerNew (source : String) : ScannerState :=
  { source := source.data, had_error := false, tokens := [], start := 0,
    current := 0, line := 1, stdout := [] }

/-- `Scanner::is_at_end`: `self.current >= self.source.len() as i32`.  The
source compares the counter to the UTF-8 byte length; here it is compared
to the character count, which is the same number exactly when the source is
all single-byte (ASCII) characters — the domain this model covers. -/
def scIsAtEnd (s : ScannerState) : Bool :=
  s.source.length ≤ s.current

/-- `self.source.chars().nth(i).unwrap()`; in the source every read index is
in bounds (guarded by `is_at_end`), the default is never produced. -/
def scCharAt (s : ScannerState) (i : Nat) : Char :=
  s.source.getD i (Char.ofNat 0)

def scAdvance (s : ScannerState) : Char × ScannerState :=
  (scCharAt s s.current, { s with current := s.current + 1 })

def scMatchNext (s : ScannerState) (expected : Char) : Bool × ScannerState :=
  if scIsAtEnd s then (false, s)
  else if !(scCharAt s s.current == expected) then (false, s)
  else (true, { s with current := s.current + 1 })

def scPeek (s : ScannerState) : Char :=
  if scIsAtEnd s then Char.ofNat 0 else scCharAt s s.current

def scPeekNext (s : ScannerState) : Char :=
  if s.source.length ≤ s.current + 1 then Char.ofNat 0 else scCharAt s (s.current + 1)

/-- `&self.source[a..b]`: in the source a byte-range slice (which panics if
`a` or `b` is not a character boundary), modelled as a character-range
slice.  Byte offsets and character positions coincide — and the panic is
unreachable — exactly when the source is all single-byte (ASCII)
characters, the domain this model covers. -/
def scSlice (s : ScannerState) (a b : Nat) : String :=
  String.mk ((s.source.drop a).take (b - a))

def scAddTokenLit (s : ScannerState) (tt : TokenType) (lit : LiteralTypes) : ScannerState :=
  { s with tokens := s.tokens ++ [{ token_type := tt, lexeme := scSlice s s.start s.current,
                                    literal := lit, line := s.line }] }

def scAddToken (s : ScannerState) (tt : TokenType) : ScannerState :=
  scAddTokenLit s tt .Nil

/-- `Scanner::report`: `println!("[line  {}] Error {}: {}", ...)` — note the
double space after `line` and that the diagnostic goes to standard output. -/
def scReport (s : ScannerState) (line : Int) (location message : String) : ScannerState :=
  { s with stdout := s.stdout ++ ["[line  " ++ toString line ++ "] Error " ++ location ++ ": " ++ message],
           had_error := true }

def scError (s : ScannerState) (line : Int) (message : String) : ScannerState :=
  scReport s line "" message

/-- `char::is_ascii_digit`. -/
def scIsDigit (c : Char) : Bool :=
  48 ≤ c.toNat && c.toNat ≤ 57

/-- `Scanner::is_alpha`. -/
def scIsAlpha (c : Char) : Bool :=
  (97 ≤ c.toNat && c.toNat ≤ 122) || (65 ≤ c.toNat && c.toNat ≤ 90) || c == '_'

def scIsAlphaNumeric (c : Char) : Bool :=
  scIsAlpha c || scIsDigit c

/-- `Scanner::get_keyword`. -/
def getKeyword (word : String) : Option TokenType :=
  if word == "and" then some .And
  else if word == "class" then some .Class
  else if word == "else" then some .Else
  else if word == "false" then some .False
  else if word == "for" then some .For
  else if word == "fun" then some .Fun
  else if word == "if" then some .If
  else if word == "nil" then some .Nil
  else if word == "or" then some .Or
  else if word == "print" then some .Print
  else if word == "return" then some .Return
  else if word == "super" then some .Super
  else if word == "this" then some .This
  else if word == "true" then some .True
  else if word == "var" then some .Var
  else if word == "while" then some .While
  else none

/-- The `//`-comment loop: consume to end of line. -/
def scCommentLoop : Nat → ScannerState → ScannerState
| 0, s => s
| n + 1, s =>
    if !(scPeek s == '\n') && !(scIsAtEnd s) then scCommentLoop n (scAdvance s).2 else s

/-- The string-body loop of `Scanner::string`. -/
def scStringLoop : Nat → ScannerState → ScannerState
| 0, s => s
| n + 1, s =>
    if !(scPeek s == '"') && !(scIsAtEnd s) then
      let s := if scPeek s == '\n' then { s with line := s.line + 1 } else s
      scStringLoop n (scAdvance s).2
    else s

/-- `Scanner::string`. -/
def scString (s : ScannerState) : ScannerState :=
  let s := scStringLoop (s.source.length + 1) s
  if scIsAtEnd s then scError s s.line "Unterminated string."
  else
    let s := (scAdvance s).2
    scAddTokenLit s .String (.String (scSlice s (s.start + 1) (s.current - 1)))

def scDigitsLoop : Nat → ScannerState → ScannerState
| 0, s => s
| n + 1, s => if scIsDigit (scPeek s) then scDigitsLoop n (scAdvance s).2 else s

/-- The numeric literal payload.  The source parses the lexeme as `f64`;
the embedding keeps the integer part of the digit string (no claim depends
on numeric literal values). -/
def numberLitOfLexeme (lex : String) : Int :=
  (lex.data.takeWhile scIsDigit).foldl (fun a c => a * 10 + ((c.toNat : Int) - 48)) 0

/-- `Scanner::number`. -/
def scNumber (s : ScannerState) : ScannerState :=
  let s := scDigitsLoop (s.source.length + 1) s
  let s :=
    if scPeek s == '.' && scIsDigit (scPeekNext s) then
      scDigitsLoop (s.source.length + 1) (scAdvance s).2
    else s
  scAddTokenLit s .Number (.Number (numberLitOfLexeme (scSlice s s.start s.current)))

def scIdentLoop : Nat → ScannerState → ScannerState
| 0, s => s
| n + 1, s => if scIsAlphaNumeric (scPeek s) then scIdentLoop n (scAdvance s).2 else s

/-- `Scanner::identifier`. -/
def scIdentifier (s : ScannerState) : ScannerState :=
  let s := scIdentLoop (s.source.length + 1) s
  let text := scSlice s s.start s.current
  match getKeyword text with
  | some t =>
      match t with
      | .True => scAddTokenLit s .True (.Bool true)
      | .False => scAddTokenLit s .False (.Bool false)
      | _ => scAddTokenLit s t .Nil
  | none => scAddTokenLit s .Identifier (.String text)

/-- `Scanner::scan_token`. -/
def scanToken (s0 : ScannerState) : ScannerState :=
  let p := scAdvance s0
  let c := p.1
  let s := p.2
  if c == '(' then scAddToken s .LeftParen
  else if c == ')' then scAddToken s .RightParen
  else if c == '{' then scAddToken s .LeftBrace
  else if c == '}' then scAddToken s .RightBrace
  else if c == ',' then scAddToken s .Comma
  else if c == '.' then scAddToken s .Dot
  else if c == '-' then scAddToken s .Minus
  else if c == '+' then scAddToken s .Plus
  else if c == ';' then scAddToken s .Semicolon
  else if c == '*' then scAddToken s .Star
  else if c == '!' then
    let m := scMatchNext s '='
    if m.1 then scAddToken m.2 .BangEqual else scAddToken m.2 .Bang
  else if c == '=' then
    let m := scMatchNext s '='
    if m.1 then scAddToken m.2 .EqualEqual else scAddToken m.2 .Equal
  else if c == '<' then
    let m := scMatchNext s '='
    if m.1 then scAddToken m.2 .LessEqual else scAddToken m.2 .Less
  else if c == '>' then
    let m := scMatchNext s '='
    if m.1 then scAddToken m.2 .GreaterEqual else scAddToken m.2 .Greater
  else if c == '/' then
    let m := scMatchNext s '/'
    if m.1 then scCommentLoop (m.2.source.length + 1) m.2 else scAddToken m.2 .Slash
  else if c == ' ' || c == '\r' || c == '\t' then s
  else if c == '\n' then { s with line := s.line + 1 }
  else if c == '"' then scString s
  else if scIsDigit c then scNumber s
  else if scIsAlpha c then scIdentifier s
  else scError s s.line "Unexpected character."

/-- The first characters `scan_token` recognizes; anything else reaches the
`Unexpected character.` arm. -/
def recognizedStart (c : Char) : Bool :=
  c == '(' || c == ')' || c == '{' || c == '}' || c == ',' || c == '.' ||
  c == '-' || c == '+' || c == ';' || c == '*' || c == '!' || c == '=' ||
  c == '<' || c == '>' || c == '/' || c == ' ' || c == '\r' || c == '\t' ||
  c == '\n' || c == '"' || scIsDigit c || scIsAlpha c

def scanTokensLoop : Nat → ScannerState → ScannerState
| 0, s => s
| n + 1, s => if scIsAtEnd s then s else scanTokensLoop n (scanToken { s with start := s.current })

/-- `Scanner::scan_tokens`: scan to the end, then append the `Eof` token. -/
def scan_tokens (s : ScannerState) : ScannerState :=
  let s := scanTokensLoop (s.source.length + 1) s
  { s with tokens := s.tokens ++ [{ token_type := .Eof, lexeme := "", literal := .Nil, line := s.line }] }

/-! ## Parser (`loxrun/src/parser.rs`)

The parser state carries the token vector and the `current`/`current_id`
counters.  Every parsing function threads the state also through errors
(the Rust methods mutate `self` before returning `Err`), so results are
`PState × Except ParserError α`.  Recursive-descent recursion is bounded
by fuel; exhausted fuel yields the internal message
`internal: parser fuel exhausted`, which no run with sufficient fuel
produces. -/

structure PState where
  tokens : List Token
  current : Nat
  current_id : Nat

structure ParserError where
  message : String
deriving DecidableEq, Repr

/-- `Parser::new`. -/
def parserNew (tokens : List Token) : PState :=
  { tokens := tokens, current := 0, current_id := 0 }

def dummyToken : Token :=
  { token_type := .Eof, lexeme := "", literal := .Nil, line := 0 }

/-- `self.tokens[i]`: direct indexing; reachable states only index into the
`Eof`-terminated stream, the default is never produced. -/
def tokenAt (p : PState) (i : Nat) : Token :=
  p.tokens.getD i dummyToken

def pIsAtEnd (p : PState) : Bool :=
  (tokenAt p p.current).token_type == .Eof

def pCheck (p : PState) (t : TokenType) : Bool :=
  if pIsAtEnd p then false else (tokenAt p p.current).token_type == t

def pAdvance (p : PState) : PState :=
  if !(pIsAtEnd p) then { p with current := p.current + 1 } else p

def pPrevious (p : PState) : Token :=
  tokenAt p (p.current - 1)

/-- `Parser::match_token`. -/
def pMatchToken : PState → List TokenType → Bool × PState
| p, [] => (false, p)
| p, t :: ts => if pCheck p t then (true, pAdvance p) else pMatchToken p ts

def pNextId (p : PState) : Nat × PState :=
  (p.current_id, { p with current_id := p.current_id + 1 })

/-- `Parser::consume_msg` (and `consume`, which forwards to it). -/
def pConsumeMsg (p : PState) (t : TokenType) (message : String) :
    PState × Except ParserError Token :=
  if pCheck p t then
    let p := pAdvance p
    (p, .ok (pPrevious p))
  else
    (p, .error { message := "[line " ++ toString (tokenAt p p.current).line ++
                            "] Error at '" ++ (tokenAt p p.current).lexeme ++ "': " ++ message })

def pSyncLoop : Nat → PState → PState
| 0, p => p
| n + 1, p =>
    if pIsAtEnd p then p
    else if (pPrevious p).token_type == .Semicolon then p
    else
      match (tokenAt p p.current).token_type with
      | .Class | .Fun | .Var | .For | .If | .While | .Print | .Return => p
      | _ => pSyncLoop n (pAdvance p)

/-- `Parser::synchronize`. -/
def pSynchronize (p : PState) : PState :=
  pSyncLoop (p.tokens.length + 1) (pAdvance p)

abbrev PRes (α : Type) := PState × Except ParserError α

def pbind {α β : Type} (r : PRes α) (f : PState → α → PRes β) : PRes β :=
  match r with
  | (p, .error e) => (p, .error e)
  | (p, .ok a) => f p a

def pFuelErr {α : Type} (p : PState) : PRes α :=
  (p, .error { message := "internal: parser fuel exhausted" })

mutual

/-- `Parser::declaration`. -/
def declaration : Nat → PState → PRes Stmt
| 0, p => pFuelErr p
| n + 1, p =>
    let m := pMatchToken p [.Class]
    if m.1 then class_declaration n m.2
    else
      let m := pMatchToken m.2 [.Fun]
      if m.1 then fun_declaration n "function" m.2
      else
        let m := pMatchToken m.2 [.Var]
        if m.1 then var_declaration n m.2
        else statement n m.2

/-- `Parser::class_declaration`: `"class" IDENT "{" function* "}"`.  This
parser revision has no superclass clause (its grammar comment reads
`classDecl -> "class" IDENTIFIER "{" function* "}"`), and it builds
`ClassStmt` without a superclass field; the embedding records `none`. -/
def class_declaration : Nat → PState → PRes Stmt
| 0, p => pFuelErr p
| n + 1, p =>
    pbind (pConsumeMsg p .Identifier "Expect class name.") fun p name =>
    pbind (pConsumeMsg p .LeftBrace "Expect '\x7b' before class body.") fun p _ =>
    pbind (classMethodsLoop n p []) fun p methods =>
    pbind (pConsumeMsg p .RightBrace "Expect '\x7d' after class body.") fun p _ =>
    (p, .ok (Stmt.Class name none methods))

def classMethodsLoop : Nat → PState → List FunctionStmt → PRes (List FunctionStmt)
| 0, p, _ => pFuelErr p
| n + 1, p, acc =>
    if !(pCheck p .RightBrace) && !(pIsAtEnd p) then
      pbind (fun_declaration n "method" p) fun p stmt =>
      match stmt with
      | .Function m => classMethodsLoop n p (acc ++ [m])
      | _ => classMethodsLoop n p acc
    else (p, .ok acc)

/-- `Parser::fun_declaration`. -/
def fun_declaration : Nat → String → PState → PRes Stmt
| 0, _, p => pFuelErr p
| n + 1, kind, p =>
    pbind (pConsumeMsg p .Identifier ("Expect " ++ kind ++ " name.")) fun p name =>
    pbind (pConsumeMsg p .LeftParen ("Expect '(' after " ++ kind ++ " name.")) fun p _ =>
    pbind
      (if !(pCheck p .RightParen) then funParamsLoop n p [] else (p, .ok [])) fun p params =>
    pbind (pConsumeMsg p .RightParen "Expect ')' after parameters.") fun p _ =>
    pbind (pConsumeMsg p .LeftBrace "Expect '\x7b' before function body.") fun p _ =>
    pbind (block n p) fun p body =>
    match body with
    | .Block stmts => (p, .ok (Stmt.Function (FunctionStmt.mk name params stmts)))
    | _ => (p, .error { message := "Expected block after function declaration." })

def funParamsLoop : Nat → PState → List Token → PRes (List Token)
| 0, p, _ => pFuelErr p
| n + 1, p, params =>
    if 255 ≤ params.length then
      (p, .error { message := "[line " ++ toString (tokenAt p p.current).line ++
                              "] Error at '" ++ (tokenAt p p.current).lexeme ++
                              "': Can't have more than 255 parameters." })
    else
      pbind (pConsumeMsg p .Identifier "Expect parameter name.") fun p tok =>
      let m := pMatchToken p [.Comma]
      if m.1 then funParamsLoop n m.2 (params ++ [tok]) else (m.2, .ok (params ++ [tok]))

/-- `Parser::var_declaration`. -/
def var_declaration : Nat → PState → PRes Stmt
| 0, p => pFuelErr p
| n + 1, p =>
    pbind (pConsumeMsg p .Identifier "Expect variable name.") fun p name =>
    let m := pMatchToken p [.Equal]
    pbind
      (if m.1 then pbind (expression n m.2) fun p e => (p, .ok (some e))
       else (m.2, .ok none)) fun p initializer =>
    pbind (pConsumeMsg p .Semicolon "Expect ';' after variable declaration.") fun p _ =>
    (p, .ok (Stmt.Var name initializer))

/-- `Parser::statement`. -/
def statement : Nat → PState → PRes Stmt
| 0, p => pFuelErr p
| n + 1, p =>
    let m := pMatchToken p [.For]
    if m.1 then for_statement n m.2
    else
      let m := pMatchToken m.2 [.If]
      if m.1 then if_statement n m.2
      else
        let m := pMatchToken m.2 [.Print]
        if m.1 then print_statement n m.2
        else
          let m := pMatchToken m.2 [.Return]
          if m.1 then return_statement n m.2
          else
            let m := pMatchToken m.2 [.While]
            if m.1 then while_statement n m.2
            else
              let m := pMatchToken m.2 [.LeftBrace]
              if m.1 then block n m.2
              else expression_statement n m.2

/-- `Parser::for_statement`: parse-time desugaring into `Block`/`While`. -/
def for_statement : Nat → PState → PRes Stmt
| 0, p => pFuelErr p
| n + 1, p =>
    pbind (pConsumeMsg p .LeftParen "Expect '(' after 'for'.") fun p _ =>
    pbind
      (let m := pMatchToken p [.Var]
       if m.1 then pbind (var_declaration n m.2) fun p st => (p, .ok (some st))
       else
         let m2 := pMatchToken m.2 [.Semicolon]
         if m2.1 then (m2.2, .ok none)
         else pbind (expression_statement n m2.2) fun p st => (p, .ok (some st)))
      fun p initializer =>
    pbind
      (if !(pCheck p .Semicolon) then
         pbind (expression n p) fun p e => (p, .ok (some e))
       else (p, .ok none)) fun p condition =>
    pbind (pConsumeMsg p .Semicolon "Expect ';' after loop condition.") fun p _ =>
    pbind
      (if !(pCheck p .RightParen) then
         pbind (expression n p) fun p e => (p, .ok (some e))
       else (p, .ok none)) fun p increment =>
    pbind (pConsumeMsg p .RightParen "Expect ')' after for clauses.") fun p _ =>
    pbind (statement n p) fun p body =>
    let body :=
      match increment with
      | some inc => Stmt.Block [body, Stmt.Expression inc]
      | none => body
    let pBody :=
      match condition with
      | some c => (p, Stmt.While c body)
      | none =>
          let idp := pNextId p
          (idp.2, Stmt.While (Expression.Literal idp.1 (.Bool true)) body)
    let p := pBody.1
    let body := pBody.2
    match initializer with
    | some ini => (p, .ok (Stmt.Block [ini, body]))
    | none => (p, .ok body)

/-- `Parser::if_statement`. -/
def if_statement : Nat → PState → PRes Stmt
| 0, p => pFuelErr p
| n + 1, p =>
    pbind (pConsumeMsg p .LeftParen "Expect '(' after 'if'.") fun p _ =>
    pbind (expression n p) fun p condition =>
    pbind (pConsumeMsg p .RightParen "Expect ')' after condition.") fun p _ =>
    pbind (statement n p) fun p then_branch =>
    let m := pMatchToken p [.Else]
    if m.1 then
      pbind (statement n m.2) fun p else_branch =>
      (p, .ok (Stmt.If condition then_branch (some else_branch)))
    else (m.2, .ok (Stmt.If condition then_branch none))

/-- `Parser::print_statement`. -/
def print_statement : Nat → PState → PRes Stmt
| 0, p => pFuelErr p
| n + 1, p =>
    pbind (expression n p) fun p value =>
    pbind (pConsumeMsg p .Semicolon "Expect ';' after value.") fun p _ =>
    (p, .ok (Stmt.Print value))

/-- `Parser::return_statement` (the `return` keyword is `previous()`). -/
def return_statement : Nat → PState → PRes Stmt
| 0, p => pFuelErr p
| n + 1, p =>
    let keyword := pPrevious p
    pbind
      (if !(pCheck p .Semicolon) then
         pbind (expression n p) fun p e => (p, .ok (some e))
       else (p, .ok none)) fun p value =>
    pbind (pConsumeMsg p .Semicolon "Expect ';' after return value.") fun p _ =>
    (p, .ok (Stmt.Return keyword value))

/-- `Parser::while_statement`. -/
def while_statement : Nat → PState → PRes Stmt
| 0, p => pFuelErr p
| n + 1, p =>
    pbind (pConsumeMsg p .LeftParen "Expect '(' after 'while'.") fun p _ =>
    pbind (expression n p) fun p condition =>
    pbind (pConsumeMsg p .RightParen "Expect ')' after condition.") fun p _ =>
    pbind (statement n p) fun p body =>
    (p, .ok (Stmt.While condition body))

/-- `Parser::block`: statements to the closing brace, synchronizing on
errors and remembering only the last error message. -/
def block : Nat → PState → PRes Stmt
| 0, p => pFuelErr p
| n + 1, p =>
    let r := blockLoop n p [] false ""
    let p := r.1
    let statements := r.2.1
    let has_error := r.2.2.1
    let last_error := r.2.2.2
    pbind (pConsumeMsg p .RightBrace "Expect '\x7d' after block.") fun p _ =>
    if has_error then (p, .error { message := last_error })
    else (p, .ok (Stmt.Block statements))

def blockLoop : Nat → PState → List Stmt → Bool → String →
    PState × (List Stmt × Bool × String)
| 0, p, acc, he, le => (p, (acc, he, le))
| n + 1, p, acc, he, le =>
    if !(pIsAtEnd p) && !((tokenAt p p.current).token_type == .RightBrace) then
      match declaration n p with
      | (p, .ok st) => blockLoop n p (acc ++ [st]) he le
      | (p, .error e) => blockLoop n (pSynchronize p) acc true e.message
    else (p, (acc, he, le))

/-- `Parser::expression_statement`. -/
def expression_statement : Nat → PState → PRes Stmt
| 0, p => pFuelErr p
| n + 1, p =>
    pbind (expression n p) fun p e =>
    pbind (pConsumeMsg p .Semicolon "Expect ';' after expression.") fun p _ =>
    (p, .ok (Stmt.Expression e))

/-- `Parser::expression`. -/
def expression : Nat → PState → PRes Expression
| 0, p => pFuelErr p
| n + 1, p => assignment n p

/-- `Parser::assignment`. -/
def assignment : Nat → PState → PRes Expression
| 0, p => pFuelErr p
| n + 1, p =>
    pbind (orP n p) fun p expr =>
    let m := pMatchToken p [.Equal]
    if m.1 then
      pbind (assignment n m.2) fun p value =>
      match expr with
      | .Variable var =>
          let idp := pNextId p
          (idp.2, .ok (Expression.Assign idp.1 var.name value))
      | .Get _ object name =>
          let idp := pNextId p
          (idp.2, .ok (Expression.Set idp.1 object name value))
      | _ =>
          (p, .error { message := "[line " ++ toString (pPrevious p).line ++
                                  "] Error at '=': Invalid assignment target." })
    else (m.2, .ok expr)

/-- `Parser::or`. -/
def orP : Nat → PState → PRes Expression
| 0, p => pFuelErr p
| n + 1, p => pbind (andP n p) fun p expr => orLoop n p expr

def orLoop : Nat → PState → Expression → PRes Expression
| 0, p, _ => pFuelErr p
| n + 1, p, expr =>
    let m := pMatchToken p [.Or]
    if m.1 then
      let operator := pPrevious m.2
      pbind (andP n m.2) fun p right =>
      let idp := pNextId p
      orLoop n idp.2 (Expression.Logical idp.1 expr operator right)
    else (m.2, .ok expr)

/-- `Parser::and`. -/
def andP : Nat → PState → PRes Expression
| 0, p => pFuelErr p
| n + 1, p => pbind (equality n p) fun p expr => andLoop n p expr

def andLoop : Nat → PState → Expression → PRes Expression
| 0, p, _ => pFuelErr p
| n + 1, p, expr =>
    let m := pMatchToken p [.And]
    if m.1 then
      let operator := pPrevious m.2
      pbind (equality n m.2) fun p right =>
      let idp := pNextId p
      andLoop n idp.2 (Expression.Logical idp.1 expr operator right)
    else (m.2, .ok expr)

/-- `Parser::equality`. -/
def equality : Nat → PState → PRes Expression
| 0, p => pFuelErr p
| n + 1, p => pbind (comparison n p) fun p expr => equalityLoop n p expr

def equalityLoop : Nat → PState → Expression → PRes Expression
| 0, p, _ => pFuelErr p
| n + 1, p, expr =>
    let m := pMatchToken p [.BangEqual, .EqualEqual]
    if m.1 then
      let operator := pPrevious m.2
      pbind (comparison n m.2) fun p right =>
      let idp := pNextId p
      equalityLoop n idp.2 (Expression.Binary idp.1 expr operator right)
    else (m.2, .ok expr)

/-- `Parser::comparison`. -/
def comparison : Nat → PState → PRes Expression
| 0, p => pFuelErr p
| n + 1, p => pbind (term n p) fun p expr => comparisonLoop n p expr

def comparisonLoop : Nat → PState → Expression → PRes Expression
| 0, p, _ => pFuelErr p
| n + 1, p, expr =>
    let m := pMatchToken p [.Greater, .GreaterEqual, .Less, .LessEqual]
    if m.1 then
      let operator := pPrevious m.2
      pbind (term n m.2) fun p right =>
      let idp := pNextId p
      comparisonLoop n idp.2 (Expression.Binary idp.1 expr operator right)
    else (m.2, .ok expr)

/-- `Parser::term`. -/
def term : Nat → PState → PRes Expression
| 0, p => pFuelErr p
| n + 1, p => pbind (factor n p) fun p expr => termLoop n p expr

def termLoop : Nat → PState → Expression → PRes Expression
| 0, p, _ => pFuelErr p
| n + 1, p, expr =>
    let m := pMatchToken p [.Minus, .Plus]
    if m.1 then
      let operator := pPrevious m.2
      pbind (factor n m.2) fun p right =>
      let idp := pNextId p
      termLoop n idp.2 (Expression.Binary idp.1 expr operator right)
    else (m.2, .ok expr)

/-- `Parser::factor`. -/
def factor : Nat → PState → PRes Expression
| 0, p => pFuelErr p
| n + 1, p => pbind (unary n p) fun p expr => factorLoop n p expr

def factorLoop : Nat → PState → Expression → PRes Expression
| 0, p, _ => pFuelErr p
| n + 1, p, expr =>
    let m := pMatchToken p [.Slash, .Star]
    if m.1 then
      let operator := pPrevious m.2
      pbind (unary n m.2) fun p right =>
      let idp := pNextId p
      factorLoop n idp.2 (Expression.Binary idp.1 expr operator right)
    else (m.2, .ok expr)

/-- `Parser::unary`. -/
def unary : Nat → PState → PRes Expression
| 0, p => pFuelErr p
| n + 1, p =>
    let m := pMatchToken p [.Bang, .Minus]
    if m.1 then
      let operator := pPrevious m.2
      pbind (unary n m.2) fun p right =>
      let idp := pNextId p
      (idp.2, .ok (Expression.Unary idp.1 operator right))
    else call n m.2

/-- `Parser::call`. -/
def call : Nat → PState → PRes Expression
| 0, p => pFuelErr p
| n + 1, p => pbind (primary n p) fun p expr => callLoop n p expr

def callLoop : Nat → PState → Expression → PRes Expression
| 0, p, _ => pFuelErr p
| n + 1, p, expr =>
    let m := pMatchToken p [.LeftParen]
    if m.1 then pbind (finish_call n m.2 expr) fun p e => callLoop n p e
    else
      let m := pMatchToken m.2 [.Dot]
      if m.1 then
        pbind (pConsumeMsg m.2 .Identifier "Expect property name after '.'.") fun p name =>
        let idp := pNextId p
        callLoop n idp.2 (Expression.Get idp.1 expr name)
      else (m.2, .ok expr)

/-- `Parser::finish_call`. -/
def finish_call : Nat → PState → Expression → PRes Expression
| 0, p, _ => pFuelErr p
| n + 1, p, callee =>
    pbind
      (if !(pCheck p .RightParen) then argsLoop n p [] else (p, .ok [])) fun p arguments =>
    pbind (pConsumeMsg p .RightParen "Expect ')' after arguments.") fun p paren =>
    let idp := pNextId p
    (idp.2, .ok (Expression.Call idp.1 callee paren arguments))

def argsLoop : Nat → PState → List Expression → PRes (List Expression)
| 0, p, _ => pFuelErr p
| n + 1, p, arguments =>
    if 255 ≤ arguments.length then
      (p, .error { message := "[line " ++ toString (tokenAt p p.current).line ++
                              "] Error at '" ++ (tokenAt p p.current).lexeme ++
                              "': Can't have more than 255 arguments." })
    else
      pbind (expression n p) fun p e =>
      let m := pMatchToken p [.Comma]
      if m.1 then argsLoop n m.2 (arguments ++ [e]) else (m.2, .ok (arguments ++ [e]))

/-- `Parser::primary`. -/
def primary : Nat → PState → PRes Expression
| 0, p => pFuelErr p
| n + 1, p =>
    let m := pMatchToken p [.False]
    if m.1 then
      let idp := pNextId m.2
      (idp.2, .ok (Expression.Literal idp.1 (.Bool false)))
    else
      let m := pMatchToken m.2 [.True]
      if m.1 then
        let idp := pNextId m.2
        (idp.2, .ok (Expression.Literal idp.1 (.Bool true)))
      else
        let m := pMatchToken m.2 [.Nil]
        if m.1 then
          let idp := pNextId m.2
          (idp.2, .ok (Expression.Literal idp.1 .Nil))
        else
          let m := pMatchToken m.2 [.Number]
          if m.1 then
            let number := pPrevious m.2
            let idp := pNextId m.2
            (idp.2, .ok (Expression.Literal idp.1 number.literal))
          else
            let m := pMatchToken m.2 [.String]
            if m.1 then
              let string := pPrevious m.2
              let idp := pNextId m.2
              (idp.2, .ok (Expression.Literal idp.1 string.literal))
            else
              let m := pMatchToken m.2 [.LeftParen]
              if m.1 then
                pbind (expression n m.2) fun p e =>
                pbind (pConsumeMsg p .RightParen "Expect ')' after expression.") fun p _ =>
                let idp := pNextId p
                (idp.2, .ok (Expression.Grouping idp.1 e))
              else
                let m := pMatchToken m.2 [.This]
                if m.1 then
                  let idp := pNextId m.2
                  (idp.2, .ok (Expression.This idp.1 (pPrevious idp.2)))
                else
                  let m := pMatchToken m.2 [.Identifier]
                  if m.1 then
                    let identifier := pPrevious m.2
                    match identifier.literal with
                    | .String s =>
                        if s.isEmpty then
                          (m.2, .error { message := "Empty identifier" })
                        else
                          let idp := pNextId m.2
                          (idp.2, .ok (Expression.Variable { id := idp.1, name := identifier }))
                    | _ => (m.2, .error { message := "Expected identifier" })
                  else
                    (m.2, .error { message := "[line " ++ toString (tokenAt m.2 m.2.current).line ++
                                              "] Error at '" ++ (tokenAt m.2 m.2.current).lexeme ++
                                              "': Expect expression." })

end

def parseLoop : Nat → PState → List Stmt → List String → Bool →
    PState × List Stmt × List String × Bool
| 0, p, acc, errs, he => (p, acc, errs, he)
| n + 1, p, acc, errs, he =>
    if pIsAtEnd p then (p, acc, errs, he)
    else
      match declaration n p with
      | (p, .ok st) => parseLoop n p (acc ++ [st]) errs he
      | (p, .error e) => parseLoop n (pSynchronize p) acc (errs ++ [e.message]) true

/-- `Parser::parse`: each declaration error is printed to standard error
(collected in the returned list) before synchronizing; any error makes the
whole parse fail. -/
def parse (fuel : Nat) (p : PState) : PState × List String × Except ParserError (List Stmt) :=
  let r := parseLoop fuel p [] [] false
  if r.2.2.2 then (r.1, r.2.2.1, .error { message := "Parsing failed with errors." })
  else (r.1, r.2.2.1, .ok r.2.1)

/-! ## Interpreter (`loxrun/src/interpreter.rs`, `callable.rs`, `class.rs`)

The interpreter state consists of the environment heap, the instance
heap, the `globals` and current-environment addresses, the resolution
side-table `locals` and the output sink (the `print` statement writes to
standard output).  Errors thread the state through, exactly as the Rust
`&mut self` methods leave their mutations in place when returning `Err`. -/

structure InterpState where
  envs : Heap
  instHeap : List Instance
  globals : Nat
  environment : Nat
  locals : List (Nat × Nat)
  output : List String

inductive InterpreterResult
| None
| Return (v : Value)

abbrev IRes (α : Type) := InterpState × Except InterpreterError α

def ibind {α β : Type} (r : IRes α) (f : InterpState → α → IRes β) : IRes β :=
  match r with
  | (s, .error e) => (s, .error e)
  | (s, .ok a) => f s a

def iFuelErr {α : Type} (s : InterpState) : IRes α :=
  (s, .error { message := "internal: interpreter fuel exhausted" })

/-- A Rust panic (`unwrap` on `None`) inside the interpreter; unreachable
on resolver-consistent inputs, and no claim exercises it. -/
def interpPanic : InterpreterError :=
  { message := "internal: Rust panic (unwrap on None)" }

/-- `Interpreter::new`: a fresh global environment that binds the `clock`
builtin (the only `DynamicFunction` the program ever creates, pointer 0). -/
def interpreterNew : InterpState :=
  { envs := [{ enclosing := none,
               values := [("clock", Value.Callable (Callable.DynamicFunction 0))] }],
    instHeap := [], globals := 0, environment := 0, locals := [], output := [] }

/-- `self.locals.get(&id)` (`HashMap<usize, usize>`). -/
def localsGet : List (Nat × Nat) → Nat → Option Nat
| [], _ => none
| (k, v) :: rest, key => if k == key then some v else localsGet rest key

def instGetD (s : InterpState) (a : Nat) : Instance :=
  s.instHeap.getD a { klass := LoxClass.mk "" none [], fields := [] }

/-- `LoxClass::find_method`: this class's map first, then the superclass
chain. -/
def find_method : LoxClass → String → Option LoxFunction
| .mk _ sc ms, name =>
    match AListGet ms name with
    | some m => some m
    | none =>
        match sc with
        | some p => find_method p name
        | none => none

/-- `LoxFunction::arity`. -/
def loxFunArity (f : LoxFunction) : Nat :=
  f.declaration.params.length

/-- `impl LoxCallable for Rc<RefCell<LoxClass>>`, `arity`: the arity of
`init` when (inherited or not) present, else 0. -/
def classArity (c : LoxClass) : Nat :=
  match find_method c "init" with
  | some m => loxFunArity m
  | none => 0

/-- Arity of a dynamic callable: the only one registered is `clock` (0). -/
def dynArity (_ : Nat) : Nat := 0

/-- Result of calling `clock`: wall-clock time is not modelled; no claim
depends on the value. -/
def dynCallValue : Value := Value.Number 0

/-- `LoxFunction::bind`: a fresh environment enclosing the closure, with
`this` defined to the instance. -/
def bindMethod (s : InterpState) (f : LoxFunction) (instAddr : Nat) :
    InterpState × LoxFunction :=
  let newAddr := s.envs.length
  ({ s with envs := s.envs ++ [{ enclosing := some f.closure,
                                 values := [("this", Value.Instance instAddr)] }] },
   { declaration := f.declaration, closure := newAddr, isInitializer := f.isInitializer })

/-- `get_instance_field` (`class.rs`): fields first, then a method bound to
the instance, else `Undefined property`. -/
def get_instance_field (s : InterpState) (addr : Nat) (name : Token) : IRes Value :=
  let inst := instGetD s addr
  match AListGet inst.fields name.lexeme with
  | some v => (s, .ok v)
  | none =>
      match find_method inst.klass name.lexeme with
      | some m =>
          let bm := bindMethod s m addr
          (bm.1, .ok (Value.Callable (Callable.Function bm.2)))
      | none =>
          (s, .error { message := "Undefined property '" ++ name.lexeme ++
                                  "'.\n[line " ++ toString name.line ++ "]" })

/-- `Interpreter::lookup_variable`: through the side-table and `get_at` for
resolved locals, else through the globals by name. -/
def lookupVariable (s : InterpState) (name : Token) (v : Variable) :
    Except InterpreterError Value :=
  match localsGet s.locals v.id with
  | some depth =>
      match envGetAt s.envs (s.envs.length + 1) s.environment name.lexeme depth with
      | .ok (some val) => .ok val
      | .ok none => .error { message := undefinedVariableMsg name }
      | .error () => .error interpPanic
  | none =>
      match envGet s.envs (s.envs.length + 1) s.globals name.lexeme with
      | some val => .ok val
      | none => .error { message := undefinedVariableMsg name }

/-- The target-update step of `Expression::Assign` (`interpreter.rs`
481-497): `assign_at` on the current environment when the side-table has a
depth, else `assign` on the globals. -/
def assignTarget (s : InterpState) (id : Nat) (name : Token) (v : Value) :
    Except InterpreterError InterpState :=
  match localsGet s.locals id with
  | some depth =>
      match envAssignAt s.envs (s.envs.length + 1) s.environment name v depth with
      | .error e => .error e
      | .ok h => .ok { s with envs := h }
  | none =>
      match envAssign s.envs (s.envs.length + 1) s.globals name v with
      | .error e => .error e
      | .ok h => .ok { s with envs := h }

/-- `Interpreter::literal`. -/
def literalValue : LiteralTypes → Value
| .String v => .String v
| .Number v => .Number v
| .Bool v => .Bool v
| .Nil => .Nil

/-- `Interpreter::unary` after the operand has been evaluated. -/
def applyUnary (operator : Token) (right : Value) : Except InterpreterError Value :=
  match operator.token_type with
  | .Bang =>
      match right with
      | .Bool v => .ok (.Bool (!v))
      | .Nil => .ok (.Bool true)
      | _ => .ok (.Bool false)
  | .Minus =>
      match right with
      | .Number v => .ok (.Number (-v))
      | _ => .error { message := "Operand must be a number.\n[line " ++
                                 toString operator.line ++ "]" }
  | _ => .error { message := "Invalid operator '" ++ operator.lexeme ++
                             "'.\n[line " ++ toString operator.line ++ "]" }

def operandsMustBeNumbers (operator : Token) : InterpreterError :=
  { message := "Operands must be numbers.\n[line " ++ toString operator.line ++ "]" }

/-- `Interpreter::binary` after both operands have been evaluated
(`interpreter.rs` 678-752): arithmetic and comparisons on numbers, `+`
also on strings, and the equality arms — `Nil`/`Nil`, same-variant
primitives by payload equality, `Callable`/`Callable` by `PartialEq`, and
a catch-all (`false` for `==`, `true` for `!=`) for everything else,
including every `Instance` pairing. -/
def applyBinary (operator : Token) (l r : Value) : Except InterpreterError Value :=
  match operator.token_type with
  | .Minus =>
      match l, r with
      | .Number a, .Number b => .ok (.Number (a - b))
      | _, _ => .error (operandsMustBeNumbers operator)
  | .Slash =>
      match l, r with
      | .Number a, .Number b => .ok (.Number (a / b))
      | _, _ => .error (operandsMustBeNumbers operator)
  | .Star =>
      match l, r with
      | .Number a, .Number b => .ok (.Number (a * b))
      | _, _ => .error (operandsMustBeNumbers operator)
  | .Plus =>
      match l, r with
      | .Number a, .Number b => .ok (.Number (a + b))
      | .String a, .String b => .ok (.String (a ++ b))
      | _, _ => .error { message := "Operands must be two numbers or two strings.\n[line " ++
                                    toString operator.line ++ "]" }
  | .Greater =>
      match l, r with
      | .Number a, .Number b => .ok (.Bool (decide (b < a)))
      | _, _ => .error (operandsMustBeNumbers operator)
  | .GreaterEqual =>
      match l, r with
      | .Number a, .Number b => .ok (.Bool (decide (b ≤ a)))
      | _, _ => .error (operandsMustBeNumbers operator)
  | .Less =>
      match l, r with
      | .Number a, .Number b => .ok (.Bool (decide (a < b)))
      | _, _ => .error (operandsMustBeNumbers operator)
  | .LessEqual =>
      match l, r with
      | .Number a, .Number b => .ok (.Bool (decide (a ≤ b)))
      | _, _ => .error (operandsMustBeNumbers operator)
  | .BangEqual =>
      match l, r with
      | .Nil, .Nil => .ok (.Bool false)
      | .Bool a, .Bool b => .ok (.Bool (!(a == b)))
      | .Number a, .Number b => .ok (.Bool (!(a == b)))
      | .String a, .String b => .ok (.Bool (!(a == b)))
      | .Callable a, .Callable b => .ok (.Bool (!(callableEq a b)))
      | _, _ => .ok (.Bool true)
  | .EqualEqual =>
      match l, r with
      | .Nil, .Nil => .ok (.Bool true)
      | .Bool a, .Bool b => .ok (.Bool (a == b))
      | .Number a, .Number b => .ok (.Bool (a == b))
      | .String a, .String b => .ok (.Bool (a == b))
      | .Callable a, .Callable b => .ok (.Bool (callableEq a b))
      | _, _ => .ok (.Bool false)
  | _ => .error { message := "Invalid operator." }

/-- Modelled from the amended claim C1 wording (the refinement side of the
comparison): `nil == nil` is `true`; same-variant primitives compare by
value; callables compare by their `PartialEq`; every comparison involving
an instance — including an instance with itself — and every cross-variant
comparison is `false`. -/
def specEqualityAmended : Value → Value → Bool
| .Nil, .Nil => true
| .Bool a, .Bool b => a == b
| .Number a, .Number b => a == b
| .String a, .String b => a == b
| .Callable a, .Callable b => callableEq a b
| _, _ => false

/-- The parameter-binding loop of `LoxFunction::call`: for each argument
`i`, define `params[i]` to it in the fresh environment's map. -/
def defineParamsLoop (params : List Token) : List Value → Nat → List (String × Value) →
    List (String × Value)
| [], _, acc => acc
| a :: rest, i, acc =>
    defineParamsLoop params rest (i + 1) (AListInsert acc (params.getD i dummyToken).lexeme a)

/-- The initializer/fall-through result of `LoxFunction::call`: an
initializer yields the bound `this` from its closure, any other function
yields `Nil`. -/
def funcFallThrough (s : InterpState) (f : LoxFunction) : IRes Value :=
  if f.isInitializer then
    match envGetAt s.envs (s.envs.length + 1) f.closure "this" 0 with
    | .ok (some (.Instance i)) => (s, .ok (Value.Instance i))
    | _ => (s, .error { message := "Initializer function called without 'this' instance." })
  else (s, .ok Value.Nil)

/-- The methods-map construction of the `Stmt::Class` arm: insert each
method in order, keyed by name, with the current environment as closure
and the `init` flag from the method's name. -/
def buildMethodsLoop : List FunctionStmt → Nat → List (String × LoxFunction) →
    List (String × LoxFunction)
| [], _, acc => acc
| m :: rest, closure, acc =>
    buildMethodsLoop rest closure
      (AListInsert acc m.name.lexeme
        { declaration := m, closure := closure, isInitializer := m.name.lexeme == "init" })

/-- `Display for Callable`. -/
def callableToString : Callable → String
| .DynamicFunction _ => "<native fn>"
| .Function f => "<fn " ++ f.declaration.name.lexeme ++ ">"
| .Class c => c.name

/-- `Display for Value`; the Rust `{}` formatting of `f64` is abstracted to
`toString` of the `Int` payload (no claim depends on number formatting). -/
def valueToString (s : InterpState) : Value → String
| .Callable c => callableToString c
| .Instance a => (instGetD s a).klass.name ++ " instance"
| .Number n => toString n
| .String str => str
| .Bool b => toString b
| .Nil => "nil"

def arityErr (expected got : Nat) (paren : Token) : InterpreterError :=
  { message := "Expected " ++ toString expected ++ " arguments but got " ++
               toString got ++ ".\n[line " ++ toString paren.line ++ "]" }

mutual

/-- `Interpreter::expression`. -/
def evalExpr : Nat → InterpState → Expression → IRes Value
| 0, s, _ => iFuelErr s
| n + 1, s, e =>
    match e with
    | .Binary _ left operator right =>
        ibind (evalExpr n s left) fun s lv =>
        ibind (evalExpr n s right) fun s rv =>
        (s, applyBinary operator lv rv)
    | .Call _ callee paren args => callE n s callee paren args
    | .Get _ object name =>
        ibind (evalExpr n s object) fun s ov =>
        match ov with
        | .Instance a => get_instance_field s a name
        | _ => (s, .error { message := "Only instances have properties.\n[line " ++
                                       toString name.line ++ "]" })
    | .Grouping _ inner => evalExpr n s inner
    | .Literal _ lit => (s, .ok (literalValue lit))
    | .Logical _ left operator right =>
        ibind (evalExpr n s left) fun s lv =>
        if operator.token_type == .Or then
          if lv.is_true then (s, .ok lv) else evalExpr n s right
        else
          if !lv.is_true then (s, .ok lv) else evalExpr n s right
    | .Set _ object name value =>
        ibind (evalExpr n s object) fun s ov =>
        match ov with
        | .Instance a =>
            ibind (evalExpr n s value) fun s vv =>
            let inst := instGetD s a
            ({ s with instHeap := s.instHeap.set a
                        { inst with fields := AListInsert inst.fields name.lexeme vv } },
             .ok vv)
        | _ => (s, .error { message := "Only instances have fields.\n[line " ++
                                       toString name.line ++ "]" })
    | .Super id keyword method =>
        match localsGet s.locals id with
        | none =>
            (s, .error { message := "Cannot use 'super' outside of a class.\n[line " ++
                                    toString keyword.line ++ "]" })
        | some depth =>
            match envGetAt s.envs (s.envs.length + 1) s.environment "super" depth with
            | .error () => (s, .error interpPanic)
            | .ok none =>
                (s, .error { message := "Undefined variable '" ++ keyword.lexeme ++
                                        "'.\n[line " ++ toString keyword.line ++ "]" })
            | .ok (some superVal) =>
                match envGetAt s.envs (s.envs.length + 1) s.environment "this" (depth - 1) with
                | .error () => (s, .error interpPanic)
                | .ok thisVal =>
                    match thisVal, superVal with
                    | some (.Instance instAddr), .Callable (.Class superClass) =>
                        match find_method superClass method.lexeme with
                        | none =>
                            (s, .error { message := "Undefined property '" ++ method.lexeme ++
                                                    "'.\n[line " ++ toString method.line ++ "]" })
                        | some m =>
                            let bm := bindMethod s m instAddr
                            (bm.1, .ok (Value.Callable (Callable.Function bm.2)))
                    | _, _ =>
                        (s, .error { message := "Superclass must be a class.\n[line " ++
                                                toString keyword.line ++ "]" })
    | .This id keyword => (s, lookupVariable s keyword { id := id, name := keyword })
    | .Unary _ operator right =>
        ibind (evalExpr n s right) fun s rv => (s, applyUnary operator rv)
    | .Variable v => (s, lookupVariable s v.name v)
    | .Assign id name value =>
        ibind (evalExpr n s value) fun s vv =>
        match assignTarget s id name vv with
        | .error er => (s, .error er)
        | .ok s2 => (s2, .ok vv)

/-- `Interpreter::call`: evaluate the callee, require a callable, then per
variant evaluate the arguments left to right, check the arity, and
dispatch. -/
def callE : Nat → InterpState → Expression → Token → List Expression → IRes Value
| 0, s, _, _, _ => iFuelErr s
| n + 1, s, calleeExpr, paren, argExprs =>
    ibind (evalExpr n s calleeExpr) fun s calleeV =>
    match calleeV with
    | .Callable c =>
        match c with
        | .DynamicFunction ptr =>
            ibind (evalArgs n s argExprs) fun s args =>
            if !(args.length == dynArity ptr) then
              (s, .error (arityErr (dynArity ptr) args.length paren))
            else (s, .ok dynCallValue)
        | .Function f =>
            ibind (evalArgs n s argExprs) fun s args =>
            if !(args.length == loxFunArity f) then
              (s, .error (arityErr (loxFunArity f) args.length paren))
            else loxFunctionCall n s f args
        | .Class cl =>
            ibind (evalArgs n s argExprs) fun s args =>
            if !(args.length == classArity cl) then
              (s, .error (arityErr (classArity cl) args.length paren))
            else classCall n s cl args
    | _ =>
        (s, .error { message := "Can only call functions and classes.\n[line " ++
                                toString paren.line ++ "]" })

/-- The argument loop of `Interpreter::call`: left to right, stopping at
the first error. -/
def evalArgs : Nat → InterpState → List Expression → IRes (List Value)
| 0, s, _ => iFuelErr s
| _ + 1, s, [] => (s, .ok [])
| n + 1, s, e :: rest =>
    ibind (evalExpr n s e) fun s v =>
    ibind (evalArgs n s rest) fun s vs =>
    (s, .ok (v :: vs))

/-- `LoxFunction::call`: fresh environment enclosing the closure with the
parameters bound, body as a block, `Return` consumed here; initializers
yield the bound `this` on fall-through or valueless return. -/
def loxFunctionCall : Nat → InterpState → LoxFunction → List Value → IRes Value
| 0, s, _, _ => iFuelErr s
| n + 1, s, f, args =>
    let funEnvAddr := s.envs.length
    let s := { s with envs := s.envs ++ [{ enclosing := some f.closure,
                                           values := defineParamsLoop f.declaration.params args 0 [] }] }
    match execute_block n s f.declaration.body funEnvAddr with
    | (s, .error e) => (s, .error e)
    | (s, .ok r) =>
        match r with
        | .None => funcFallThrough s f
        | .Return .Nil => funcFallThrough s f
        | .Return v => (s, .ok v)

/-- `impl LoxCallable for Rc<RefCell<LoxClass>>`, `call`: allocate the
instance, invoke a bound `init` when present, return the instance. -/
def classCall : Nat → InterpState → LoxClass → List Value → IRes Value
| 0, s, _, _ => iFuelErr s
| n + 1, s, cl, args =>
    let instAddr := s.instHeap.length
    let s := { s with instHeap := s.instHeap ++ [{ klass := cl, fields := [] }] }
    match find_method cl "init" with
    | some m =>
        let bm := bindMethod s m instAddr
        ibind (loxFunctionCall n bm.1 bm.2 args) fun s _ =>
        (s, .ok (Value.Instance instAddr))
    | none => (s, .ok (Value.Instance instAddr))

/-- `Interpreter::execute_block`: a fresh child of the given environment,
the previous environment restored on every exit path. -/
def execute_block : Nat → InterpState → List Stmt → Nat → IRes InterpreterResult
| 0, s, _, _ => iFuelErr s
| n + 1, s, stmts, envAddr =>
    let previous := s.environment
    let newAddr := s.envs.length
    let s := { s with envs := s.envs ++ [{ enclosing := some envAddr, values := [] }],
                      environment := newAddr }
    match execBlockLoop n s stmts with
    | (s, .error e) => ({ s with environment := previous }, .error e)
    | (s, .ok r) => ({ s with environment := previous }, .ok r)

def execBlockLoop : Nat → InterpState → List Stmt → IRes InterpreterResult
| 0, s, _ => iFuelErr s
| _ + 1, s, [] => (s, .ok .None)
| n + 1, s, st :: rest =>
    match execStmt n s st with
    | (s, .error e) => (s, .error e)
    | (s, .ok (.Return v)) => (s, .ok (.Return v))
    | (s, .ok .None) => execBlockLoop n s rest

/-- `Interpreter::execute`: run the statements in order; `?` propagates
only errors, a top-level `Return` result is discarded and execution
continues. -/
def executeStmts : Nat → InterpState → List Stmt → IRes InterpreterResult
| 0, s, _ => iFuelErr s
| _ + 1, s, [] => (s, .ok .None)
| n + 1, s, st :: rest =>
    match execStmt n s st with
    | (s, .error e) => (s, .error e)
    | (s, .ok _) => executeStmts n s rest

/-- The `Stmt::While` loop. -/
def execWhile : Nat → InterpState → Expression → Stmt → IRes InterpreterResult
| 0, s, _, _ => iFuelErr s
| n + 1, s, cond, body =>
    ibind (evalExpr n s cond) fun s cv =>
    if cv.is_true then
      match execStmt n s body with
      | (s, .error e) => (s, .error e)
      | (s, .ok (.Return v)) => (s, .ok (.Return v))
      | (s, .ok .None) => execWhile n s cond body
    else (s, .ok .None)

/-- `Interpreter::execute_statement`.  In the `Stmt::Class` arm the source
first resolves the superclass (when present) and requires it to be a class
value, only then defines the class name as `Nil`, optionally pushes the
`super` scope, builds the methods map, pops, and finally `assign`s the
class value to the name. -/
def execStmt : Nat → InterpState → Stmt → IRes InterpreterResult
| 0, s, _ => iFuelErr s
| n + 1, s, st =>
    match st with
    | .Expression e => ibind (evalExpr n s e) fun s _ => (s, .ok .None)
    | .Function f =>
        ({ s with envs := envDefine s.envs s.environment f.name.lexeme
                    (Value.Callable (Callable.Function
                      { declaration := f, closure := s.environment, isInitializer := false })) },
         .ok .None)
    | .Return _ valOpt =>
        match valOpt with
        | some v => ibind (evalExpr n s v) fun s rv => (s, .ok (.Return rv))
        | none => (s, .ok (.Return Value.Nil))
    | .If cond then_branch else_branch =>
        ibind (evalExpr n s cond) fun s cv =>
        if cv.is_true then execStmt n s then_branch
        else
          match else_branch with
          | some eb => execStmt n s eb
          | none => (s, .ok .None)
    | .Print e =>
        ibind (evalExpr n s e) fun s v =>
        ({ s with output := s.output ++ [valueToString s v] }, .ok .None)
    | .Block stmts => execute_block n s stmts s.environment
    | .Var name initOpt =>
        match initOpt with
        | some ini =>
            ibind (evalExpr n s ini) fun s v =>
            ({ s with envs := envDefine s.envs s.environment name.lexeme v }, .ok .None)
        | none =>
            ({ s with envs := envDefine s.envs s.environment name.lexeme Value.Nil }, .ok .None)
    | .While cond body => execWhile n s cond body
    | .Class name superclassOpt methods =>
        match (match superclassOpt with
               | none => Except.ok (none : Option LoxClass)
               | some sup =>
                   match lookupVariable s sup.name sup with
                   | .error e => .error e
                   | .ok (.Callable (.Class c)) => .ok (some c)
                   | .ok _ => .error { message := "Superclass must be a class.\n[line " ++
                                                  toString sup.name.line ++ "]" }) with
        | .error e => (s, .error e)
        | .ok scOpt =>
            let s1 := { s with envs := envDefine s.envs s.environment name.lexeme Value.Nil }
            let s2 :=
              match scOpt with
              | some c =>
                  { s1 with envs := s1.envs ++ [{ enclosing := some s1.environment,
                                                  values := [("super", Value.Callable (Callable.Class c))] }],
                            environment := s1.envs.length }
              | none => s1
            let ms := buildMethodsLoop methods s2.environment []
            let klass := LoxClass.mk name.lexeme scOpt ms
            let s3 :=
              match scOpt with
              | some _ =>
                  match (heapGetRec s2.envs s2.environment).enclosing with
                  | some prev => { s2 with environment := prev }
                  | none => s2
              | none => s2
            match envAssign s3.envs (s3.envs.length + 1) s3.environment name
                    (Value.Callable (Callable.Class klass)) with
            | .error e => (s3, .error e)
            | .ok h => ({ s3 with envs := h }, .ok .None)

end

/-! ## Driver (`loxrun/src/main.rs`)

`run` scans, parses, and — when neither the scanner flag nor the parse
result report an error — executes with a fresh interpreter.  `main.rs`
declares no `resolver` module and never constructs a `Resolver`: no
resolution pass runs between parsing and evaluation, and `locals` stays
empty.  Scanner diagnostics go to standard output (`println!`), parser
and runtime diagnostics to standard error (`eprintln!`). -/

structure RunOutput where
  stdout : List String
  stderr : List String
  exit : Int
deriving DecidableEq, Repr

def run (fuel : Nat) (source : String) : RunOutput :=
  let sc := scan_tokens (scannerNew source)
  let pr := parse fuel (parserNew sc.tokens)
  let perrs := pr.2.1
  if sc.had_error then { stdout := sc.stdout, stderr := perrs, exit := 65 }
  else
    match pr.2.2 with
    | .error _ => { stdout := sc.stdout, stderr := perrs, exit := 65 }
    | .ok stmts =>
        match executeStmts fuel interpreterNew stmts with
        | (s, .error e) => { stdout := sc.stdout ++ s.output, stderr := perrs ++ [e.message], exit := 70 }
        | (s, .ok _) => { stdout := sc.stdout ++ s.output, stderr := perrs, exit := 0 }

/-! ## Small constructions used by the theorems -/

/-- An identifier token as the scanner produces it. -/
def identTok (s : String) (line : Int) : Token :=
  { token_type := .Identifier, lexeme := s, literal := .String s, line := line }

def lparenTok (line : Int) : Token :=
  { token_type := .LeftParen, lexeme := "(", literal := .Nil, line := line }

def rparenTok (line : Int) : Token :=
  { token_type := .RightParen, lexeme := ")", literal := .Nil, line := line }

def lbraceTok (line : Int) : Token :=
  { token_type := .LeftBrace, lexeme := "\x7b", literal := .Nil, line := line }

def rbraceTok (line : Int) : Token :=
  { token_type := .RightBrace, lexeme := "\x7d", literal := .Nil, line := line }

def commaTok (line : Int) : Token :=
  { token_type := .Comma, lexeme := ",", literal := .Nil, line := line }

/-- The token sequence of a comma-separated parameter list. -/
def paramsToks : List String → Int → List Token
| [], _ => []
| [s], line => [identTok s line]
| s :: s2 :: rest, line => identTok s line :: commaTok line :: paramsToks (s2 :: rest) line

/-- The token sequence of one method, `name(p1, ..., pk)` with an empty
body block. -/
def methodToks (mname : String) (ps : List String) (line : Int) : List Token :=
  identTok mname line :: lparenTok line ::
    (paramsToks ps line ++ [rparenTok line, lbraceTok line, rbraceTok line])

/-- The token sequence of a whole method list (the `function*` of the
grammar, with empty bodies). -/
def methodsToks : List (String × List String) → Int → List Token
| [], _ => []
| (m, ps) :: rest, line => methodToks m ps line ++ methodsToks rest line

/-- The `FunctionStmt` the parser builds for one such method. -/
def methodStmt (mname : String) (ps : List String) (line : Int) : FunctionStmt :=
  FunctionStmt.mk (identTok mname line) (ps.map fun s => identTok s line) []

/-- The method statements for a whole method list. -/
def methodsStmts : List (String × List String) → Int → List FunctionStmt
| [], _ => []
| (m, ps) :: rest, line => methodStmt m ps line :: methodsStmts rest line

/-- A parser fuel sufficient for `classMethodsLoop` on a method list (the
loop passes `n` of `n + 1` to each `fun_declaration` and to its own
recursive call, so the requirement is the max over the methods). -/
def msFuelLB : List (String × List String) → Nat
| [] => 1
| (_, ps) :: rest => max (ps.length + 3) (msFuelLB rest + 1)

/-- A three-scope chain: a root binding `x`, and two empty scopes below it. -/
def exampleChainHeap : Heap :=
  [ { enclosing := none, values := [("x", Value.Number 5)] },
    { enclosing := some 0, values := [] },
    { enclosing := some 1, values := [] } ]

/-- The arity of a callable, per variant as `Interpreter::call` queries it. -/
def callableArity : Callable → Nat
| .DynamicFunction ptr => dynArity ptr
| .Function f => loxFunArity f
| .Class c => classArity c

/-- The superclass-value test of the `Stmt::Class` arm
(`if let Value::Callable(Callable::Class(class)) = superclass_value`). -/
def asClassValue : Value → Option LoxClass
| .Callable (.Class c) => some c
| _ => none

/-- A state whose globals bind `a` to a number. -/
def exampleGlobalsA : InterpState :=
  { interpreterNew with envs := [{ enclosing := none, values := [("a", Value.Number 1)] }] }

/-- A state whose globals bind `f` to a user function of arity 0. -/
def exampleGlobalsF : InterpState :=
  { interpreterNew with envs :=
      [{ enclosing := none,
         values := [("f", Value.Callable (Callable.Function
           { declaration := FunctionStmt.mk (identTok "f" 1) [] [],
             closure := 0, isInitializer := false }))] }] }

/-! ## Helper lemmas -/

theorem stringAppend_assoc : ∀ (a b c : String), (a ++ b) ++ c = a ++ (b ++ c)
| ⟨a⟩, ⟨b⟩, ⟨c⟩ => congrArg String.mk (List.append_assoc a b c)

theorem AListGet_insert_self {α : Type} (m : List (String × α)) (k : String) (v : α) :
    AListGet (AListInsert m k v) k = some v := by
  induction m with
  | nil => simp [AListInsert, AListGet]
  | cons p rest ih =>
      by_cases hk : p.1 == k
      · simp [AListInsert, AListGet, hk]
      · simp only [AListInsert]
        rw [show (p.1 == k) = false by simpa using hk]
        simpa [AListGet, hk] using ih

theorem AListContains_insert {α : Type} (m : List (String × α)) (k : String) (v : α) :
    AListContains (AListInsert m k v) k = true := by
  simp [AListContains, AListGet_insert_self]

theorem heapGetRec_set_self : ∀ (h : Heap) (a : Nat) (e : EnvRec),
    a < h.length → heapGetRec (heapSet h a e) a = e := by
  intro h
  induction h with
  | nil => intro a e ha; simp at ha
  | cons x t ih =>
      intro a e ha
      cases a with
      | zero => simp [heapGetRec, heapSet, List.set]
      | succ a =>
          simp only [heapGetRec, heapSet, List.set, List.getD_cons_succ]
          exact ih a e (by simpa using ha)

theorem heapGetRec_append_left : ∀ (h t : Heap) (a : Nat),
    a < h.length → heapGetRec (h ++ t) a = heapGetRec h a := by
  intro h
  induction h with
  | nil => intro t a ha; simp at ha
  | cons x r ih =>
      intro t a ha
      cases a with
      | zero => simp [heapGetRec]
      | succ a =>
          simp only [heapGetRec, List.cons_append, List.getD_cons_succ]
          exact ih t a (by simpa using ha)

theorem heapGetRec_append_self : ∀ (h : Heap) (e : EnvRec),
    heapGetRec (h ++ [e]) h.length = e := by
  intro h
  induction h with
  | nil => intro e; simp [heapGetRec]
  | cons x r ih => intro e; simpa [heapGetRec, List.getD_cons_succ] using ih e

theorem envDefine_length (h : Heap) (a : Nat) (k : String) (v : Value) :
    (envDefine h a k v).length = h.length := by
  simp [envDefine, heapSet]

theorem envAssign_contained (h : Heap) (fuel a : Nat) (name : Token) (v : Value)
    (hc : AListContains (heapGetRec h a).values name.lexeme = true) :
    envAssign h (fuel + 1) a name v = .ok (envDefine h a name.lexeme v) := by
  simp [envAssign, hc]

theorem envGetAtLoop_walk (h : Heap) (fuel : Nat) (name : String) :
    ∀ (k x b : Nat), ancestorAt h x k = some b →
      envGetAtLoop h fuel name k (some x) = .ok (envGet h fuel b name) := by
  intro k
  induction k with
  | zero =>
      intro x b hb
      simp only [ancestorAt, Option.some.injEq] at hb
      subst hb
      rfl
  | succ k ih =>
      intro x b hb
      simp only [ancestorAt] at hb
      cases hE : (heapGetRec h x).enclosing with
      | none => rw [hE] at hb; exact absurd hb (by simp)
      | some p =>
          rw [hE] at hb
          simpa [envGetAtLoop, hE] using ih p b hb

theorem envAssignAtLoop_walk (h : Heap) (fuel : Nat) (name : Token) (v : Value) :
    ∀ (k x b : Nat), ancestorAt h x k = some b →
      envAssignAtLoop h fuel name v k (some x) = envAssign h fuel b name v := by
  intro k
  induction k with
  | zero =>
      intro x b hb
      simp only [ancestorAt, Option.some.injEq] at hb
      subst hb
      rfl
  | succ k ih =>
      intro x b hb
      simp only [ancestorAt] at hb
      cases hE : (heapGetRec h x).enclosing with
      | none => rw [hE] at hb; exact absurd hb (by simp)
      | some p =>
          rw [hE] at hb
          simpa [envAssignAtLoop, hE] using ih p b hb

theorem applyWrites_code_lines : ∀ (ops : List WriteOp) (c : Chunk),
    (applyWrites c ops).code = c.code ++ ops.map WriteOp.byteOf ∧
    (applyWrites c ops).lines = c.lines ++ ops.map WriteOp.lineOf := by
  intro ops
  induction ops with
  | nil => intro c; simp [applyWrites]
  | cons op rest ih =>
      intro c
      cases op with
      | opCode o l =>
          have h := ih (c.write_op_code o l)
          simpa [applyWrites, Chunk.write_op_code, WriteOp.byteOf, WriteOp.lineOf] using h
      | byte b l =>
          have h := ih (c.write b l)
          simpa [applyWrites, Chunk.write, WriteOp.byteOf, WriteOp.lineOf] using h

/-! Parser stepping lemmas: the token-level helpers on a state whose
remaining tokens (`tokens.drop current`) have a known shape. -/

theorem listDrop_add {α : Type} (L : List α) (n : Nat) (a b : List α)
    (h : L.drop n = a ++ b) : L.drop (n + a.length) = b := by
  rw [← List.drop_drop, h, List.drop_left]

theorem listDrop_succ {α : Type} (L : List α) (n : Nat) (t : α) (r : List α)
    (h : L.drop n = t :: r) : L.drop (n + 1) = r := by
  rw [← List.drop_drop, h, List.drop_one]
  rfl

theorem listGetD_drop {α : Type} (L : List α) (n : Nat) (t : α) (r : List α) (d : α)
    (h : L.drop n = t :: r) : L.getD n d = t := by
  have h0 : L.getD n d = ((L.drop n).head?).getD d := by
    rw [List.getD_eq_getElem?_getD, List.head?_drop]
  rw [h0, h]
  rfl

theorem tokenAt_drop (p : PState) (t : Token) (l : List Token)
    (h : p.tokens.drop p.current = t :: l) : tokenAt p p.current = t :=
  listGetD_drop p.tokens p.current t l dummyToken h

theorem pIsAtEnd_drop (p : PState) (t : Token) (l : List Token)
    (h : p.tokens.drop p.current = t :: l) :
    pIsAtEnd p = (t.token_type == TokenType.Eof) := by
  rw [pIsAtEnd, tokenAt_drop p t l h]

theorem pCheck_drop (p : PState) (t : Token) (l : List Token) (tt : TokenType)
    (h : p.tokens.drop p.current = t :: l)
    (hne : (t.token_type == TokenType.Eof) = false) :
    pCheck p tt = (t.token_type == tt) := by
  rw [pCheck, pIsAtEnd_drop p t l h, hne, tokenAt_drop p t l h]
  simp

theorem pAdvance_drop (p : PState) (t : Token) (l : List Token)
    (h : p.tokens.drop p.current = t :: l)
    (hne : (t.token_type == TokenType.Eof) = false) :
    pAdvance p = { p with current := p.current + 1 } := by
  rw [pAdvance, pIsAtEnd_drop p t l h, hne]
  simp

theorem pConsumeMsg_drop (p : PState) (t : Token) (l : List Token) (tt : TokenType)
    (msg : String) (h : p.tokens.drop p.current = t :: l)
    (hty : t.token_type = tt) (hne : (tt == TokenType.Eof) = false) :
    pConsumeMsg p tt msg = ({ p with current := p.current + 1 }, .ok t) := by
  have hne2 : (t.token_type == TokenType.Eof) = false := by rw [hty]; exact hne
  have hc : pCheck p tt = true := by
    rw [pCheck_drop p t l tt h hne2, hty]
    simp
  rw [pConsumeMsg, hc]
  simp only [if_true, pAdvance_drop p t l h hne2, pPrevious, tokenAt, Nat.add_sub_cancel]
  rw [show ({ p with current := p.current + 1 } : PState).tokens = p.tokens from rfl,
      listGetD_drop p.tokens p.current t l dummyToken h]

theorem pConsumeMsg_fail_drop (p : PState) (t : Token) (l : List Token) (tt : TokenType)
    (msg : String) (h : p.tokens.drop p.current = t :: l)
    (hne : (t.token_type == TokenType.Eof) = false)
    (hty : (t.token_type == tt) = false) :
    pConsumeMsg p tt msg
      = (p, .error { message := "[line " ++ toString t.line ++ "] Error at '" ++
                                t.lexeme ++ "': " ++ msg }) := by
  have hc : pCheck p tt = false := by rw [pCheck_drop p t l tt h hne]; exact hty
  rw [pConsumeMsg, hc]
  simp only [Bool.false_eq_true, if_false, tokenAt_drop p t l h]

theorem paramsToks_head (q : String) (qs : List String) (line : Int) :
    ∃ tl, paramsToks (q :: qs) line = identTok q line :: tl := by
  cases qs with
  | nil => exact ⟨[], rfl⟩
  | cons a b => exact ⟨commaTok line :: paramsToks (a :: b) line, rfl⟩

/-- `blockLoop` stops immediately — at any fuel — when the next token is a
closing brace. -/
theorem blockLoop_rbrace (v : Nat) (p : PState) (acc : List Stmt) (he : Bool)
    (le : String) (t : Token) (l : List Token)
    (h : p.tokens.drop p.current = t :: l)
    (ht : t.token_type = TokenType.RightBrace) :
    blockLoop v p acc he le = (p, (acc, he, le)) := by
  cases v with
  | zero => rfl
  | succ v =>
      rw [blockLoop, tokenAt_drop p t l h, ht]
      simp

/-- `funParamsLoop` on the token sequence of a nonempty parameter list:
each name is consumed and collected, and the loop stops before the closing
parenthesis. -/
theorem funParamsLoop_accepts :
    ∀ (ps : List String) (u : Nat) (p : PState) (acc : List Token) (line : Int)
      (rest : List Token),
      ps ≠ [] → ps.length ≤ u → acc.length + ps.length ≤ 255 →
      p.tokens.drop p.current = paramsToks ps line ++ (rparenTok line :: rest) →
      funParamsLoop u p acc
        = ({ p with current := p.current + (paramsToks ps line).length },
           .ok (acc ++ ps.map fun s => identTok s line)) := by
  intro ps
  induction ps with
  | nil => intro u p acc line rest hne; exact absurd rfl hne
  | cons s tail ih =>
      intro u p acc line rest _ hu hacc h
      cases u with
      | zero => exact absurd hu (by simp)
      | succ u =>
          have hsmall : ¬ 255 ≤ acc.length := by simp at hacc; omega
          cases tail with
          | nil =>
              have h0 : p.tokens.drop p.current
                  = identTok s line :: (rparenTok line :: rest) := by
                simpa [paramsToks] using h
              have h1 : p.tokens.drop (p.current + 1) = rparenTok line :: rest :=
                listDrop_succ p.tokens p.current _ _ h0
              have hcons : pConsumeMsg p .Identifier "Expect parameter name."
                  = ({ p with current := p.current + 1 }, .ok (identTok s line)) :=
                pConsumeMsg_drop p (identTok s line) _ .Identifier _ h0 rfl (by decide)
              have hcm : pCheck { p with current := p.current + 1 } .Comma = false := by
                rw [pCheck_drop { p with current := p.current + 1 } (rparenTok line) _
                      .Comma h1 rfl]
                rfl
              rw [funParamsLoop, if_neg hsmall, hcons]
              simp [pbind, pMatchToken, hcm, paramsToks]
          | cons s2 ss =>
              have h0 : p.tokens.drop p.current
                  = identTok s line :: (commaTok line ::
                      (paramsToks (s2 :: ss) line ++ (rparenTok line :: rest))) := by
                simpa [paramsToks] using h
              have h1 : p.tokens.drop (p.current + 1)
                  = commaTok line :: (paramsToks (s2 :: ss) line ++ (rparenTok line :: rest)) :=
                listDrop_succ p.tokens p.current _ _ h0
              have h2 : p.tokens.drop (p.current + 1 + 1)
                  = paramsToks (s2 :: ss) line ++ (rparenTok line :: rest) :=
                listDrop_succ p.tokens (p.current + 1) _ _ h1
              have hcons : pConsumeMsg p .Identifier "Expect parameter name."
                  = ({ p with current := p.current + 1 }, .ok (identTok s line)) :=
                pConsumeMsg_drop p (identTok s line) _ .Identifier _ h0 rfl (by decide)
              have hcm : pCheck { p with current := p.current + 1 } .Comma = true := by
                rw [pCheck_drop { p with current := p.current + 1 } (commaTok line) _
                      .Comma h1 rfl]
                rfl
              have hadv : pAdvance { p with current := p.current + 1 }
                  = { p with current := p.current + 1 + 1 } :=
                pAdvance_drop { p with current := p.current + 1 } (commaTok line) _ h1 rfl
              have hrec := ih u { p with current := p.current + 1 + 1 }
                  (acc ++ [identTok s line]) line rest (by simp)
                  (by simp at hu ⊢; omega) (by simp at hacc ⊢; omega) h2
              have hlen : p.current + 1 + 1 + (paramsToks (s2 :: ss) line).length
                  = p.current + (paramsToks (s :: s2 :: ss) line).length := by
                simp [paramsToks]
                omega
              rw [funParamsLoop, if_neg hsmall, hcons]
              simp [pbind, pMatchToken, hcm, hadv, hrec, hlen, List.append_assoc]

/-- `fun_declaration "method"` on the token sequence of one method with an
empty body: the method is parsed to its `FunctionStmt` and the position
moves past the closing brace.  Fuel `ps.length + 2` suffices because the
parameter loop and the body block each run at fuel one less. -/
theorem fun_declaration_accepts (u : Nat) (p : PState) (mname : String)
    (ps : List String) (line : Int) (rest : List Token)
    (hu : ps.length + 2 ≤ u) (h255 : ps.length ≤ 255)
    (h : p.tokens.drop p.current = methodToks mname ps line ++ rest) :
    fun_declaration u "method" p
      = ({ p with current := p.current + (methodToks mname ps line).length },
         .ok (Stmt.Function (methodStmt mname ps line))) := by
  cases u with
  | zero => exact absurd hu (by omega)
  | succ u =>
      have h0 : p.tokens.drop p.current
          = identTok mname line :: (lparenTok line ::
              (paramsToks ps line ++ (rparenTok line :: lbraceTok line ::
                rbraceTok line :: rest))) := by
        simpa [methodToks, List.append_assoc] using h
      have h1 : p.tokens.drop (p.current + 1)
          = lparenTok line :: (paramsToks ps line ++ (rparenTok line :: lbraceTok line ::
              rbraceTok line :: rest)) :=
        listDrop_succ p.tokens p.current _ _ h0
      have h2 : p.tokens.drop (p.current + 1 + 1)
          = paramsToks ps line ++ (rparenTok line :: lbraceTok line ::
              rbraceTok line :: rest) :=
        listDrop_succ p.tokens (p.current + 1) _ _ h1
      have h3 : p.tokens.drop (p.current + 1 + 1 + (paramsToks ps line).length)
          = rparenTok line :: lbraceTok line :: rbraceTok line :: rest :=
        listDrop_add p.tokens (p.current + 1 + 1) _ _ h2
      have h4 : p.tokens.drop (p.current + 1 + 1 + (paramsToks ps line).length + 1)
          = lbraceTok line :: rbraceTok line :: rest :=
        listDrop_succ p.tokens _ _ _ h3
      have h5 : p.tokens.drop (p.current + 1 + 1 + (paramsToks ps line).length + 1 + 1)
          = rbraceTok line :: rest :=
        listDrop_succ p.tokens _ _ _ h4
      cases u with
      | zero => exact absurd hu (by omega)
      | succ v =>
          have hparams :
              (if !(pCheck { p with current := p.current + 1 + 1 } .RightParen)
               then funParamsLoop (v + 1) { p with current := p.current + 1 + 1 } []
               else ({ p with current := p.current + 1 + 1 }, .ok []))
              = ({ p with current := p.current + 1 + 1 + (paramsToks ps line).length },
                 .ok (ps.map fun s => identTok s line)) := by
            cases ps with
            | nil =>
                have hck : pCheck { p with current := p.current + 1 + 1 } .RightParen
                    = true := by
                  rw [pCheck_drop { p with current := p.current + 1 + 1 } (rparenTok line) _
                        .RightParen (by simpa [paramsToks] using h2) rfl]
                  rfl
                rw [hck]
                simp [paramsToks]
            | cons q qs =>
                obtain ⟨tl, htl⟩ := paramsToks_head q qs line
                have h2h : p.tokens.drop (p.current + 1 + 1)
                    = identTok q line :: (tl ++ (rparenTok line :: lbraceTok line ::
                        rbraceTok line :: rest)) := by
                  rw [h2, htl]
                  simp
                have hck : pCheck { p with current := p.current + 1 + 1 } .RightParen
                    = false := by
                  rw [pCheck_drop { p with current := p.current + 1 + 1 } (identTok q line) _
                        .RightParen h2h rfl]
                  rfl
                have hloop := funParamsLoop_accepts (q :: qs) (v + 1)
                    { p with current := p.current + 1 + 1 } [] line
                    (lbraceTok line :: rbraceTok line :: rest)
                    (by simp) (by simp at hu ⊢; omega) (by simp at h255 ⊢; omega)
                    (by simpa [List.append_assoc] using h2)
                rw [hck]
                simp [hloop]
          have hblock : blockLoop v
                { p with current := p.current + 1 + 1 + (paramsToks ps line).length + 1 + 1 }
                [] false ""
              = ({ p with current := p.current + 1 + 1 + (paramsToks ps line).length + 1 + 1 },
                 ([], false, "")) :=
            blockLoop_rbrace v _ [] false "" (rbraceTok line) rest h5 rfl
          have hlen : p.current + 1 + 1 + (paramsToks ps line).length + 1 + 1 + 1
              = p.current + (methodToks mname ps line).length := by
            simp [methodToks]
            omega
          rw [fun_declaration]
          rw [pConsumeMsg_drop p (identTok mname line) _ .Identifier _ h0 rfl (by decide)]
          simp only [pbind]
          rw [pConsumeMsg_drop { p with current := p.current + 1 } (lparenTok line) _
                .LeftParen _ h1 rfl (by decide)]
          simp only [pbind]
          rw [hparams]
          simp only [pbind]
          rw [pConsumeMsg_drop
                { p with current := p.current + 1 + 1 + (paramsToks ps line).length }
                (rparenTok line) _ .RightParen _ h3 rfl (by decide)]
          simp only [pbind]
          rw [pConsumeMsg_drop
                { p with current := p.current + 1 + 1 + (paramsToks ps line).length + 1 }
                (lbraceTok line) _ .LeftBrace _ h4 rfl (by decide)]
          simp only [pbind]
          rw [block, hblock]
          simp only [pbind]
          rw [pConsumeMsg_drop
                { p with current := p.current + 1 + 1 + (paramsToks ps line).length + 1 + 1 }
                (rbraceTok line) _ .RightBrace _ h5 rfl (by decide)]
          simp [pbind, methodStmt, hlen]

/-- `classMethodsLoop` on the token sequence of a method list: every method
is parsed in order and the loop stops at the closing brace of the class
body. -/
theorem classMethodsLoop_accepts :
    ∀ (ms : List (String × List String)) (n : Nat) (p : PState)
      (acc : List FunctionStmt) (line : Int) (rest : List Token),
      msFuelLB ms ≤ n →
      (∀ x ∈ ms, x.2.length ≤ 255) →
      p.tokens.drop p.current = methodsToks ms line ++ (rbraceTok line :: rest) →
      classMethodsLoop n p acc
        = ({ p with current := p.current + (methodsToks ms line).length },
           .ok (acc ++ methodsStmts ms line)) := by
  intro ms
  induction ms with
  | nil =>
      intro n p acc line rest hfuel _ h
      cases n with
      | zero => exact absurd hfuel (by simp [msFuelLB])
      | succ n =>
          have h0 : p.tokens.drop p.current = rbraceTok line :: rest := by
            simpa [methodsToks] using h
          have hck : pCheck p .RightBrace = true := by
            rw [pCheck_drop p (rbraceTok line) _ .RightBrace h0 rfl]
            rfl
          rw [classMethodsLoop]
          simp [hck, methodsToks, methodsStmts]
  | cons mps ms ih =>
      intro n p acc line rest hfuel h255 h
      obtain ⟨m, ps⟩ := mps
      have hmax : max (ps.length + 3) (msFuelLB ms + 1) ≤ n := by
        simpa [msFuelLB] using hfuel
      have hf1 : ps.length + 3 ≤ n := le_trans (le_max_left _ _) hmax
      have hf2 : msFuelLB ms + 1 ≤ n := le_trans (le_max_right _ _) hmax
      cases n with
      | zero => exact absurd hf1 (by omega)
      | succ n =>
          have h0 : p.tokens.drop p.current
              = methodToks m ps line ++ (methodsToks ms line ++ (rbraceTok line :: rest)) := by
            simpa [methodsToks, List.append_assoc] using h
          have hhead : p.tokens.drop p.current
              = identTok m line :: (lparenTok line ::
                  (paramsToks ps line ++ (rparenTok line :: lbraceTok line :: rbraceTok line ::
                    (methodsToks ms line ++ (rbraceTok line :: rest))))) := by
            simpa [methodToks, List.append_assoc] using h0
          have hck : pCheck p .RightBrace = false := by
            rw [pCheck_drop p (identTok m line) _ .RightBrace hhead rfl]
            rfl
          have hend : pIsAtEnd p = false := by
            rw [pIsAtEnd_drop p (identTok m line) _ hhead]
            rfl
          have hfun := fun_declaration_accepts n p m ps line
              (methodsToks ms line ++ (rbraceTok line :: rest))
              (by omega) (h255 (m, ps) (by simp)) h0
          have hrec := ih n { p with current := p.current + (methodToks m ps line).length }
              (acc ++ [methodStmt m ps line]) line rest (by omega)
              (fun x hx => h255 x (by simp [hx]))
              (listDrop_add p.tokens p.current _ _ h0)
          have hlen : p.current + (methodToks m ps line).length
                + (methodsToks ms line).length
              = p.current + (methodsToks ((m, ps) :: ms) line).length := by
            simp [methodsToks]
            omega
          rw [classMethodsLoop]
          simp [hck, hend, hfun, pbind, hrec, hlen, methodsStmts, List.append_assoc]

/-! ## Claim C8 -/

/-- Claim C8 (confirmed): for every sequence of chunk write operations
(`write_op_code` and `write` of an operand byte) applied to a fresh chunk,
the line array stays parallel to the code array — equal lengths, and the
entry at index `i` is the line passed when byte `i` was written (the two
arrays are exactly the per-operation lines and bytes, in order). -/
theorem c8_chunk_lines_parallel (ops : List WriteOp) :
    (applyWrites Chunk.new ops).lines = ops.map WriteOp.lineOf ∧
    (applyWrites Chunk.new ops).code = ops.map WriteOp.byteOf ∧
    (applyWrites Chunk.new ops).lines.length = (applyWrites Chunk.new ops).code.length := by
  have h := applyWrites_code_lines ops Chunk.new
  refine ⟨?_, ?_, ?_⟩
  · simpa [Chunk.new] using h.2
  · simpa [Chunk.new] using h.1
  · rw [h.1, h.2]; simp [Chunk.new]

/-! ## Claim C1 -/

/-- Claim C1, counterexample: runtime `==` on an instance value and itself
evaluates to `false`, not `true` — the equality match in
`Interpreter::binary` has no `Instance` arm, so every instance pairing
falls into the catch-all. -/
theorem c1_instance_self_eq_counterexample :
    applyBinary { token_type := .EqualEqual, lexeme := "==", literal := .Nil, line := 1 }
        (Value.Instance 0) (Value.Instance 0) = .ok (Value.Bool false) ∧
    ¬ applyBinary { token_type := .EqualEqual, lexeme := "==", literal := .Nil, line := 1 }
        (Value.Instance 0) (Value.Instance 0) = .ok (Value.Bool true) := by
  refine ⟨rfl, ?_⟩
  intro hcontra
  simp [applyBinary] at hcontra

/-- Claim C1 (corrected): runtime equality compares `nil == nil` as `true`,
same-variant primitives by payload value, callables by the `Callable`
`PartialEq`, and yields `false` for every other pairing — cross-variant
pairs and every pair of instances, including an instance with itself; `!=`
is the pointwise negation.  `specEqualityAmended` spells out that amended
specification and `applyBinary` realizes it. -/
theorem c1_equality_amended (lex : String) (lit : LiteralTypes) (line : Int) (l r : Value) :
    applyBinary { token_type := .EqualEqual, lexeme := lex, literal := lit, line := line } l r
      = .ok (.Bool (specEqualityAmended l r)) ∧
    applyBinary { token_type := .BangEqual, lexeme := lex, literal := lit, line := line } l r
      = .ok (.Bool (!(specEqualityAmended l r))) := by
  cases l <;> cases r <;> simp [applyBinary, specEqualityAmended]

/-! ## Claim C3 -/

/-- Claim C3, counterexample: `class_declaration` on the tokens of
`class B < A {}` (positioned after the `class` keyword) rejects the `<`
with `Expect '{' before class body.` instead of parsing a superclass
clause; in particular it does not produce the Class statement recording
superclass `A`. -/
theorem c3_superclass_clause_counterexample :
    (class_declaration 9
      { tokens := [ { token_type := .Class, lexeme := "class", literal := .Nil, line := 1 },
                    identTok "B" 1,
                    { token_type := .Less, lexeme := "<", literal := .Nil, line := 1 },
                    identTok "A" 1,
                    { token_type := .LeftBrace, lexeme := "\x7b", literal := .Nil, line := 1 },
                    { token_type := .RightBrace, lexeme := "\x7d", literal := .Nil, line := 1 },
                    { token_type := .Eof, lexeme := "", literal := .Nil, line := 1 } ],
        current := 1, current_id := 0 }).2
      = .error { message := "[line 1] Error at '<': Expect '\x7b' before class body." } ∧
    ¬ (class_declaration 9
      { tokens := [ { token_type := .Class, lexeme := "class", literal := .Nil, line := 1 },
                    identTok "B" 1,
                    { token_type := .Less, lexeme := "<", literal := .Nil, line := 1 },
                    identTok "A" 1,
                    { token_type := .LeftBrace, lexeme := "\x7b", literal := .Nil, line := 1 },
                    { token_type := .RightBrace, lexeme := "\x7d", literal := .Nil, line := 1 },
                    { token_type := .Eof, lexeme := "", literal := .Nil, line := 1 } ],
        current := 1, current_id := 0 }).2
      = .ok (Stmt.Class (identTok "B" 1) (some { id := 0, name := identTok "A" 1 }) []) := by
  refine ⟨rfl, ?_⟩
  intro hcontra
  rw [show (class_declaration 9
      { tokens := [ { token_type := .Class, lexeme := "class", literal := .Nil, line := 1 },
                    identTok "B" 1,
                    { token_type := .Less, lexeme := "<", literal := .Nil, line := 1 },
                    identTok "A" 1,
                    { token_type := .LeftBrace, lexeme := "\x7b", literal := .Nil, line := 1 },
                    { token_type := .RightBrace, lexeme := "\x7d", literal := .Nil, line := 1 },
                    { token_type := .Eof, lexeme := "", literal := .Nil, line := 1 } ],
        current := 1, current_id := 0 }).2
      = .error { message := "[line 1] Error at '<': Expect '\x7b' before class body." } from rfl]
    at hcontra
  exact Except.noConfusion hcontra

/-- Claim C3 (corrected): the parser's class declarations carry no
superclass clause — the accepted form is `class IDENT "\x7b" function* "\x7d"`,
recording no superclass.  First conjunct: for every class name, every
method list (arbitrary method names and parameter lists of at most 255
names; the method bodies checked are the empty block, general bodies are
not covered here), every source line, every state whose remaining tokens
spell that declaration and every sufficient fuel, `class_declaration`
succeeds with a `Class` statement holding `none` for the superclass and
exactly the listed methods.  Second conjunct: whenever the token after the
class name is a `<`, the declaration is rejected with
`Expect '\x7b' before class body.` at that token. -/
theorem c3_classdecl_amended :
    (∀ (n : Nat) (p : PState) (cname : String) (ms : List (String × List String))
        (line : Int) (rest : List Token),
        msFuelLB ms + 1 ≤ n →
        (∀ x ∈ ms, x.2.length ≤ 255) →
        p.tokens.drop p.current
          = identTok cname line :: lbraceTok line ::
              (methodsToks ms line ++ (rbraceTok line :: rest)) →
        class_declaration n p
          = ({ p with current := p.current + ((methodsToks ms line).length + 3) },
             .ok (Stmt.Class (identTok cname line) none (methodsStmts ms line)))) ∧
    (∀ (n : Nat) (p : PState) (nameT lessT : Token) (rest : List Token),
        nameT.token_type = .Identifier → lessT.token_type = .Less →
        p.tokens.drop p.current = nameT :: lessT :: rest →
        class_declaration (n + 1) p
          = ({ p with current := p.current + 1 },
             .error { message := "[line " ++ toString lessT.line ++ "] Error at '" ++
                                 lessT.lexeme ++ "': Expect '\x7b' before class body." })) := by
  constructor
  · intro n p cname ms line rest hfuel h255 h
    cases n with
    | zero => exact absurd hfuel (by omega)
    | succ n =>
        have h1 : p.tokens.drop (p.current + 1)
            = lbraceTok line :: (methodsToks ms line ++ (rbraceTok line :: rest)) :=
          listDrop_succ p.tokens p.current _ _ h
        have h2 : p.tokens.drop (p.current + 1 + 1)
            = methodsToks ms line ++ (rbraceTok line :: rest) :=
          listDrop_succ p.tokens (p.current + 1) _ _ h1
        rw [class_declaration]
        rw [pConsumeMsg_drop p (identTok cname line) _ .Identifier _ h rfl (by decide)]
        simp only [pbind]
        rw [pConsumeMsg_drop { p with current := p.current + 1 } (lbraceTok line) _
              .LeftBrace _ h1 rfl (by decide)]
        simp only [pbind]
        rw [classMethodsLoop_accepts ms n { p with current := p.current + 1 + 1 } []
              line rest (by omega) h255 h2]
        simp only [pbind]
        rw [pConsumeMsg_drop
              { p with current := p.current + 1 + 1 + (methodsToks ms line).length }
              (rbraceTok line) _ .RightBrace _
              (listDrop_add p.tokens (p.current + 1 + 1) _ _ h2) rfl (by decide)]
        simp only [pbind, List.nil_append]
        have hlen : p.current + 1 + 1 + (methodsToks ms line).length + 1
            = p.current + ((methodsToks ms line).length + 3) := by omega
        rw [hlen]
  · intro n p nameT lessT rest hname hless h
    have h1 : p.tokens.drop (p.current + 1) = lessT :: rest :=
      listDrop_succ p.tokens p.current _ _ h
    rw [class_declaration]
    rw [pConsumeMsg_drop p nameT _ .Identifier _ h hname (by decide)]
    simp only [pbind]
    rw [pConsumeMsg_fail_drop { p with current := p.current + 1 } lessT _
          .LeftBrace _ h1 (by rw [hless]; rfl) (by rw [hless]; rfl)]
    simp only [pbind]
    rw [stringAppend_assoc,
        show ("': " ++ "Expect '\x7b' before class body.")
          = "': Expect '\x7b' before class body." from rfl]

/-- Claim C3, witness for the amended theorem: the two-method class
`class C \x7b m(a, b) \x7b \x7d n() \x7b \x7d \x7d` is accepted with no
superclass, and `class B < ...` is rejected at the `<`. -/
theorem c3_classdecl_witness :
    ((msFuelLB [("m", ["a", "b"]), ("n", [])] + 1 ≤ 12 ∧
      (∀ x ∈ ([("m", ["a", "b"]), ("n", [])] : List (String × List String)),
        x.2.length ≤ 255)) ∧
     class_declaration 12
       { tokens := identTok "C" 1 :: lbraceTok 1 ::
           (methodsToks [("m", ["a", "b"]), ("n", [])] 1 ++ (rbraceTok 1 :: [])),
         current := 0, current_id := 0 }
       = ({ tokens := identTok "C" 1 :: lbraceTok 1 ::
              (methodsToks [("m", ["a", "b"]), ("n", [])] 1 ++ (rbraceTok 1 :: [])),
            current := 0 + ((methodsToks [("m", ["a", "b"]), ("n", [])] 1).length + 3),
            current_id := 0 },
          .ok (Stmt.Class (identTok "C" 1) none
                (methodsStmts [("m", ["a", "b"]), ("n", [])] 1)))) ∧
    class_declaration (0 + 1)
      { tokens := [identTok "B" 1,
                   { token_type := .Less, lexeme := "<", literal := .Nil, line := 1 }],
        current := 0, current_id := 0 }
      = ({ tokens := [identTok "B" 1,
                      { token_type := .Less, lexeme := "<", literal := .Nil, line := 1 }],
           current := 0 + 1, current_id := 0 },
         .error { message := "[line " ++ toString (1 : Int) ++ "] Error at '" ++
                             "<" ++ "': Expect '\x7b' before class body." }) :=
  ⟨⟨⟨by decide, by decide⟩,
    c3_classdecl_amended.1 12 _ "C" [("m", ["a", "b"]), ("n", [])] 1 []
      (by decide) (by decide) rfl⟩,
   c3_classdecl_amended.2 0 _ (identTok "B" 1)
     { token_type := .Less, lexeme := "<", literal := .Nil, line := 1 } []
     rfl rfl rfl⟩

/-! ## Claim C4 -/

/-- Claim C4, counterexample: on the three-scope chain, `get_at("x", 1)`
from the innermost scope walks one link to the middle scope — which does
not contain `x` — and still returns the root's binding, because `get_at`
delegates to the chained `get`; likewise `assign_at("x", 7, 1)` updates
the root scope instead of failing. -/
theorem c4_get_at_chained_counterexample :
    envGetAt exampleChainHeap 4 2 "x" 1 = .ok (some (Value.Number 5)) ∧
    AListGet (heapGetRec exampleChainHeap 1).values "x" = none ∧
    envAssignAt exampleChainHeap 4 2 (identTok "x" 1) (Value.Number 7) 1
      = .ok [ { enclosing := none, values := [("x", Value.Number 7)] },
              { enclosing := some 0, values := [] },
              { enclosing := some 1, values := [] } ] ∧
    ¬ envGetAt exampleChainHeap 4 2 "x" 1 = .ok none := by
  refine ⟨rfl, rfl, rfl, ?_⟩
  intro hcontra
  rw [show envGetAt exampleChainHeap 4 2 "x" 1 = .ok (some (Value.Number 5)) from rfl] at hcontra
  simp at hcontra

/-- Claim C4 (corrected): `get_at(name, d)` and `assign_at(name, value, d)`
walk exactly `d` enclosing links and then run the chained dynamic `get` /
`assign` from the scope reached — searching that scope and everything
above it — rather than operating on that scope only; whenever the walk
reaches a scope `b`, they agree with `get`/`assign` started at `b`. -/
theorem c4_walk_then_chained_amended (h : Heap) (fuel a d b : Nat) (name : String)
    (nameTok : Token) (v : Value) (hb : ancestorAt h a d = some b) :
    envGetAt h fuel a name d = .ok (envGet h fuel b name) ∧
    envAssignAt h fuel a nameTok v d = envAssign h fuel b nameTok v := by
  cases d with
  | zero =>
      simp only [ancestorAt, Option.some.injEq] at hb
      subst hb
      exact ⟨rfl, rfl⟩
  | succ d =>
      simp only [ancestorAt] at hb
      cases hE : (heapGetRec h a).enclosing with
      | none => rw [hE] at hb; exact absurd hb (by simp)
      | some p =>
          rw [hE] at hb
          constructor
          · simpa [envGetAt, hE] using envGetAtLoop_walk h fuel name d p b hb
          · simpa [envAssignAt, hE] using envAssignAtLoop_walk h fuel nameTok v d p b hb

/-- Claim C4, witness for the amended theorem at the three-scope chain. -/
theorem c4_walk_witness :
    ancestorAt exampleChainHeap 2 1 = some 1 ∧
    (envGetAt exampleChainHeap 4 2 "x" 1 = .ok (envGet exampleChainHeap 4 1 "x") ∧
     envAssignAt exampleChainHeap 4 2 (identTok "x" 1) (Value.Number 7) 1
       = envAssign exampleChainHeap 4 1 (identTok "x" 1) (Value.Number 7)) :=
  ⟨rfl, c4_walk_then_chained_amended exampleChainHeap 4 2 1 1 "x" (identTok "x" 1)
    (Value.Number 7) rfl⟩

/-! ## Claim C5 -/

/-- Claim C5, counterexample: executing `class A < B {}` in the fresh
interpreter state (where `B` is unbound) fails with
`Undefined variable 'B'.` and leaves the state unchanged — in particular
`A` is not bound to `Nil`, although the claimed order (define first, then
resolve the superclass) would have bound it before the failure. -/
theorem c5_superclass_before_define_counterexample :
    execStmt 1 interpreterNew
        (Stmt.Class (identTok "A" 1) (some { id := 0, name := identTok "B" 1 }) [])
      = (interpreterNew, .error { message := "Undefined variable 'B'.\n[line 1]" }) ∧
    AListGet (heapGetRec interpreterNew.envs interpreterNew.environment).values "A" = none := by
  exact ⟨rfl, rfl⟩

/-- Claim C5 (corrected): executing a class declaration first resolves the
superclass clause when present — failing with the lookup error or with
`Superclass must be a class.` while leaving the state unchanged, so the
class name is not yet defined — and only on success defines the name as
`Nil`, optionally pushes the `super` scope, builds the methods map, pops,
and `assign`s the constructed class to the name. -/
theorem c5_class_order_amended (n : Nat) (s : InterpState) (name : Token) (sup : Variable)
    (methods : List FunctionStmt) (ha : s.environment < s.envs.length) :
    (∀ e, lookupVariable s sup.name sup = .error e →
        execStmt (n + 1) s (.Class name (some sup) methods) = (s, .error e)) ∧
    (∀ v, lookupVariable s sup.name sup = .ok v → asClassValue v = none →
        execStmt (n + 1) s (.Class name (some sup) methods)
          = (s, .error { message := "Superclass must be a class.\n[line " ++
                                    toString sup.name.line ++ "]" })) ∧
    (execStmt (n + 1) s (.Class name none methods)
      = ({ s with envs := envDefine (envDefine s.envs s.environment name.lexeme Value.Nil)
                    s.environment name.lexeme
                    (Value.Callable (Callable.Class (LoxClass.mk name.lexeme none
                      (buildMethodsLoop methods s.environment [])))) },
         .ok InterpreterResult.None)) ∧
    (∀ c, lookupVariable s sup.name sup = .ok (.Callable (.Class c)) →
        execStmt (n + 1) s (.Class name (some sup) methods)
          = ({ s with envs :=
                (envDefine
                  (envDefine s.envs s.environment name.lexeme Value.Nil ++
                    [{ enclosing := some s.environment,
                       values := [("super", Value.Callable (Callable.Class c))] }])
                  s.environment name.lexeme
                  (Value.Callable (Callable.Class (LoxClass.mk name.lexeme (some c)
                    (buildMethodsLoop methods s.envs.length []))))) },
             .ok InterpreterResult.None)) := by
  have hc1 : AListContains
      (heapGetRec (envDefine s.envs s.environment name.lexeme Value.Nil) s.environment).values
      name.lexeme = true := by
    rw [envDefine, heapGetRec_set_self _ _ _ ha]
    exact AListContains_insert _ _ _
  refine ⟨?_, ?_, ?_, ?_⟩
  · intro e he
    simp [execStmt, he]
  · intro v hv hnc
    cases v with
    | Callable cb =>
        cases cb with
        | Class c => simp [asClassValue] at hnc
        | DynamicFunction ptr => simp [execStmt, hv]
        | Function f => simp [execStmt, hv]
    | Instance a => simp [execStmt, hv]
    | Number m => simp [execStmt, hv]
    | String str => simp [execStmt, hv]
    | Bool b => simp [execStmt, hv]
    | Nil => simp [execStmt, hv]
  · simp only [execStmt]
    rw [envAssign_contained _ _ _ _ _ hc1]
  · intro c hv
    have hlen : s.environment < (envDefine s.envs s.environment name.lexeme Value.Nil).length := by
      rw [envDefine_length]; exact ha
    have hc2 : AListContains
        (heapGetRec (envDefine s.envs s.environment name.lexeme Value.Nil ++
          [{ enclosing := some s.environment,
             values := [("super", Value.Callable (Callable.Class c))] }]) s.environment).values
        name.lexeme = true := by
      rw [heapGetRec_append_left _ _ _ hlen, envDefine, heapGetRec_set_self _ _ _ ha]
      exact AListContains_insert _ _ _
    simp only [execStmt, hv]
    rw [heapGetRec_append_self]
    simp only []
    rw [envAssign_contained _ _ _ _ _ hc2]
    simp [envDefine_length]

/-- Claim C5, witness for the amended theorem: the no-superclass success
path at the fresh interpreter state. -/
theorem c5_class_order_witness :
    interpreterNew.environment < interpreterNew.envs.length ∧
    execStmt 1 interpreterNew (Stmt.Class (identTok "A" 1) none [])
      = ({ interpreterNew with
            envs := envDefine (envDefine interpreterNew.envs interpreterNew.environment
                      "A" Value.Nil) interpreterNew.environment "A"
                    (Value.Callable (Callable.Class (LoxClass.mk "A" none
                      (buildMethodsLoop [] interpreterNew.environment [])))) },
         .ok InterpreterResult.None) :=
  ⟨by decide,
   (c5_class_order_amended 0 interpreterNew (identTok "A" 1)
     { id := 0, name := identTok "B" 1 } [] (by decide)).2.2.1⟩

/-! ## Claim C6 -/

/-- `scan_token` on a character none of its arms recognize: the state is
advanced one character and the `Unexpected character.` diagnostic is
reported. -/
theorem scanToken_unrecognized (s : ScannerState)
    (h : recognizedStart (scCharAt s s.current) = false) :
    scanToken s = scError { s with current := s.current + 1 } s.line "Unexpected character." := by
  simp only [recognizedStart, Bool.or_eq_false_iff] at h
  simp only [scanToken, scAdvance]
  simp_all

/-- Claim C6, counterexample: scanning `@` sets the error flag but the
diagnostic goes to standard output, not standard error, and its text is
`[line  1] Error : Unexpected character.` (two spaces after `line`), which
differs from the claimed `[line N] Error : Unexpected character.`. -/
theorem c6_unexpected_char_stream_counterexample :
    run 100 "@" = { stdout := ["[line  1] Error : Unexpected character."],
                    stderr := [], exit := 65 } ∧
    ¬ ("[line  1] Error : Unexpected character."
        = "[line 1] Error : Unexpected character.") := by
  exact ⟨rfl, by decide⟩

/-- Claim C6 (corrected): for every single-byte (ASCII, `c.toNat < 128`)
character `c` the scanner does not recognize, scanning the source `c;` sets
the error flag and prints `[line  1] Error : Unexpected character.` to
standard output; scanning continues, producing the `Semicolon` token and
the terminating `Eof`.  Non-ASCII characters are likewise unrecognized, but
for them the source's mixed byte/char indexing (`is_at_end` compares the
counter to the byte length, token slicing is by bytes) panics while
scanning the following token, so continuation is asserted — and the
embedding is faithful — only in the single-byte case. -/
theorem c6_unexpected_char_amended (c : Char) (hA : c.toNat < 128)
    (h : recognizedStart c = false) :
    scan_tokens (scannerNew (String.mk [c, ';'])) =
      { source := [c, ';'], had_error := true,
        tokens := [ { token_type := .Semicolon, lexeme := ";", literal := .Nil, line := 1 },
                    { token_type := .Eof, lexeme := "", literal := .Nil, line := 1 } ],
        start := 1, current := 2, line := 1,
        stdout := ["[line  1] Error : Unexpected character."] } := by
  have hstep :
      scanToken
        { source := [c, ';'], had_error := false, tokens := [], start := 0,
          current := 0, line := 1, stdout := [] }
      = { source := [c, ';'], had_error := true, tokens := [], start := 0, current := 1,
          line := 1, stdout := ["[line  1] Error : Unexpected character."] } := by
    rw [scanToken_unrecognized _ (by simpa [scCharAt] using h)]
    rfl
  have hloop :
      scanTokensLoop 3
        { source := [c, ';'], had_error := false, tokens := [], start := 0,
          current := 0, line := 1, stdout := [] }
      = { source := [c, ';'], had_error := true,
          tokens := [{ token_type := .Semicolon, lexeme := ";", literal := .Nil, line := 1 }],
          start := 1, current := 2, line := 1,
          stdout := ["[line  1] Error : Unexpected character."] } := by
    rw [show scanTokensLoop 3
          { source := [c, ';'], had_error := false, tokens := [], start := 0,
            current := 0, line := 1, stdout := [] }
        = scanTokensLoop 2 (scanToken
          { source := [c, ';'], had_error := false, tokens := [], start := 0,
            current := 0, line := 1, stdout := [] }) from rfl, hstep]
    rfl
  rw [show scan_tokens (scannerNew (String.mk [c, ';']))
      = (let s := scanTokensLoop 3
           { source := [c, ';'], had_error := false, tokens := [], start := 0,
             current := 0, line := 1, stdout := [] };
         { s with tokens := s.tokens ++
             [{ token_type := .Eof, lexeme := "", literal := .Nil, line := s.line }] }) from rfl,
    hloop]
  rfl

/-- Claim C6, witness for the amended theorem at `@`. -/
theorem c6_unexpected_char_witness :
    ((Char.ofNat 64).toNat < 128 ∧ recognizedStart (Char.ofNat 64) = false) ∧
    scan_tokens (scannerNew (String.mk [Char.ofNat 64, ';'])) =
      { source := [Char.ofNat 64, ';'], had_error := true,
        tokens := [ { token_type := .Semicolon, lexeme := ";", literal := .Nil, line := 1 },
                    { token_type := .Eof, lexeme := "", literal := .Nil, line := 1 } ],
        start := 1, current := 2, line := 1,
        stdout := ["[line  1] Error : Unexpected character."] } :=
  ⟨⟨by decide, by decide⟩, c6_unexpected_char_amended (Char.ofNat 64) (by decide) (by decide)⟩

/-! ## Claim C7 -/

/-- Claim C7 (confirmed): logical expressions short-circuit and return the
deciding operand's value uncoerced — when the left operand of `and` is
falsey, or of `or` is truthy, the whole expression evaluates to exactly the
left value with exactly the state left by the left operand (the right
operand contributes nothing); otherwise the result is the evaluation of
the right operand in that state. -/
theorem c7_logical_short_circuit (n : Nat) (s s1 : InterpState) (lid : Nat)
    (left right : Expression) (op : Token) (v : Value)
    (hL : evalExpr n s left = (s1, .ok v)) :
    (op.token_type = .And → v.is_true = false →
        evalExpr (n + 1) s (.Logical lid left op right) = (s1, .ok v)) ∧
    (op.token_type = .Or → v.is_true = true →
        evalExpr (n + 1) s (.Logical lid left op right) = (s1, .ok v)) ∧
    (op.token_type = .And → v.is_true = true →
        evalExpr (n + 1) s (.Logical lid left op right) = evalExpr n s1 right) ∧
    (op.token_type = .Or → v.is_true = false →
        evalExpr (n + 1) s (.Logical lid left op right) = evalExpr n s1 right) := by
  refine ⟨?_, ?_, ?_, ?_⟩ <;> intro hOp hV <;>
    simp [evalExpr, ibind, hL, hOp, hV]

/-- Claim C7, witness: `false and E` yields the left `false` without
touching the state. -/
theorem c7_short_circuit_witness :
    evalExpr 1 interpreterNew (.Literal 0 (.Bool false))
      = (interpreterNew, .ok (Value.Bool false)) ∧
    evalExpr 2 interpreterNew
        (.Logical 2 (.Literal 0 (.Bool false))
          { token_type := .And, lexeme := "and", literal := .Nil, line := 1 }
          (.Literal 1 (.Bool true)))
      = (interpreterNew, .ok (Value.Bool false)) :=
  ⟨rfl,
   (c7_logical_short_circuit 1 interpreterNew interpreterNew 2
     (.Literal 0 (.Bool false)) (.Literal 1 (.Bool true))
     { token_type := .And, lexeme := "and", literal := .Nil, line := 1 }
     (Value.Bool false) rfl).1 rfl rfl⟩

/-! ## Claim C9 -/

/-- Claim C9 (confirmed): a successful assignment expression evaluates to
the assigned value — `x = E` returns exactly the value `E` evaluated to
(with the state after the target update), and a property set `o.f = E`
stores that value in the instance's fields and returns it. -/
theorem c9_assignment_value (n : Nat) :
    (∀ (s s1 s2 : InterpState) (id : Nat) (name : Token) (e : Expression) (v : Value),
        evalExpr n s e = (s1, .ok v) → assignTarget s1 id name v = .ok s2 →
        evalExpr (n + 1) s (.Assign id name e) = (s2, .ok v)) ∧
    (∀ (s s1 s2 : InterpState) (oid a : Nat) (objE : Expression) (name : Token)
        (e : Expression) (v : Value),
        evalExpr n s objE = (s1, .ok (Value.Instance a)) →
        evalExpr n s1 e = (s2, .ok v) →
        evalExpr (n + 1) s (.Set oid objE name e) =
          ({ s2 with instHeap := s2.instHeap.set a
                       { instGetD s2 a with
                           fields := AListInsert (instGetD s2 a).fields name.lexeme v } },
           .ok v)) := by
  constructor
  · intro s s1 s2 id name e v hE hT
    simp [evalExpr, ibind, hE, hT]
  · intro s s1 s2 oid a objE name e v hO hV
    simp [evalExpr, ibind, hO, hV]

/-- Claim C9, witness: `a = 5` on globals binding `a` yields `5`. -/
theorem c9_assignment_value_witness :
    evalExpr 1 exampleGlobalsA (.Literal 1 (.Number 5))
      = (exampleGlobalsA, .ok (Value.Number 5)) ∧
    assignTarget exampleGlobalsA 0 (identTok "a" 1) (Value.Number 5)
      = .ok { exampleGlobalsA with
              envs := [{ enclosing := none, values := [("a", Value.Number 5)] }] } ∧
    evalExpr 2 exampleGlobalsA (.Assign 0 (identTok "a" 1) (.Literal 1 (.Number 5)))
      = ({ exampleGlobalsA with
           envs := [{ enclosing := none, values := [("a", Value.Number 5)] }] },
         .ok (Value.Number 5)) :=
  ⟨rfl, rfl,
   (c9_assignment_value 1).1 exampleGlobalsA exampleGlobalsA
     { exampleGlobalsA with envs := [{ enclosing := none, values := [("a", Value.Number 5)] }] }
     0 (identTok "a" 1) (.Literal 1 (.Number 5)) (Value.Number 5) rfl rfl⟩

/-! ## Claim C10 -/

/-- Claim C10 (confirmed): when a call's argument count does not match the
callee's arity, the arguments have all been evaluated left to right before
the `Expected N arguments but got M.` error is raised — the error carries
exactly the state left by the argument evaluation, so argument side
effects persist, and no code of the callee runs. -/
theorem c10_call_arity_after_args (n : Nat) (s s1 s2 : InterpState) (calleeE : Expression)
    (paren : Token) (argExprs : List Expression) (c : Callable) (vs : List Value)
    (hC : evalExpr n s calleeE = (s1, .ok (Value.Callable c)))
    (hA : evalArgs n s1 argExprs = (s2, .ok vs))
    (hN : ¬ vs.length = callableArity c) :
    callE (n + 1) s calleeE paren argExprs
      = (s2, .error (arityErr (callableArity c) vs.length paren)) := by
  have hb : (vs.length == callableArity c) = false := by
    cases h2 : vs.length == callableArity c
    · rfl
    · exact absurd (eq_of_beq h2) hN
  cases c with
  | DynamicFunction ptr =>
      simp only [callableArity] at hb ⊢
      simp [callE, ibind, hC, hA, hb]
  | Function f =>
      simp only [callableArity] at hb ⊢
      simp [callE, ibind, hC, hA, hb]
  | Class cl =>
      simp only [callableArity] at hb ⊢
      simp [callE, ibind, hC, hA, hb]

/-- Claim C10, witness: calling the zero-ary `f` with one argument leaves
the evaluated argument's state and raises
`Expected 0 arguments but got 1.`. -/
theorem c10_call_arity_witness :
    evalExpr 2 exampleGlobalsF (.Variable { id := 0, name := identTok "f" 1 })
      = (exampleGlobalsF, .ok (Value.Callable (Callable.Function
          { declaration := FunctionStmt.mk (identTok "f" 1) [] [],
            closure := 0, isInitializer := false }))) ∧
    evalArgs 2 exampleGlobalsF [.Literal 1 (.Number 1)]
      = (exampleGlobalsF, .ok [Value.Number 1]) ∧
    callE 3 exampleGlobalsF (.Variable { id := 0, name := identTok "f" 1 })
        { token_type := .RightParen, lexeme := ")", literal := .Nil, line := 1 }
        [.Literal 1 (.Number 1)]
      = (exampleGlobalsF, .error (arityErr 0 1
          { token_type := .RightParen, lexeme := ")", literal := .Nil, line := 1 })) :=
  ⟨rfl, rfl,
   c10_call_arity_after_args 2 exampleGlobalsF exampleGlobalsF exampleGlobalsF
     (.Variable { id := 0, name := identTok "f" 1 })
     { token_type := .RightParen, lexeme := ")", literal := .Nil, line := 1 }
     [.Literal 1 (.Number 1)]
     (Callable.Function { declaration := FunctionStmt.mk (identTok "f" 1) [] [],
                          closure := 0, isInitializer := false })
     [Value.Number 1] rfl rfl (by decide)⟩

/-! ## Claim C2 -/

/-- Claim C2 (code_bug): the driver's `run` never invokes the resolver, so
no resolution-stage check runs.  `class X<X{}` does exit with 65, but only
because the bundled parser rejects the `<`; standard error carries the
parse diagnostic, not `A class can't inherit from itself`.  And a program
whose only static error is resolution-stage — `return;` at top level —
parses, evaluates, and exits 0 instead of aborting with 65. -/
theorem c2_no_resolution_pass :
    run 100 "class X<X\x7b\x7d" =
      { stdout := [],
        stderr := ["[line 1] Error at '<': Expect '\x7b' before class body."],
        exit := 65 } ∧
    strContains "[line 1] Error at '<': Expect '\x7b' before class body."
        "A class can't inherit from itself" = false ∧
    run 100 "return;" = { stdout := [], stderr := [], exit := 0 } := by
  exact ⟨rfl, rfl, rfl⟩

end LoxRs
